import Mathlib

/-!
Verification of the PokerPlanner session-synchronization core.

The definitions below are a shallow embedding of the TypeScript source:

* the Scale Resolver (`generateFibonacciScale`, `calculateFinalEstimate`
  from `server/routes`, and the custom-scale preparation logic of the
  session-creation form `onSubmit`),
* the Entity Store (`MemStorage` in `server/storage.ts`, whose JS `Map`s
  are modelled as insertion-ordered association lists with
  replace-or-append `set` semantics),
* the WebSocket Session Gateway handlers and the REST join/create/delete
  handlers from `server/routes`, together with the connection registry
  (`clients` map), combined into one step function over system states.

Theorems then settle the specification claims against these definitions.
-/

set_option maxHeartbeats 1000000

namespace PokerPlanner

/-! ## Scale Resolver -/

/-- `generateFibonacciScale` from `server/routes`: the fixed ten-term scale. -/
def generateFibonacciScale : List Int := [1, 2, 3, 5, 8, 13, 21, 34, 55, 89]

/-- Arithmetic mean of the vote values, as an exact rational
(the JS code computes `values.reduce((sum, val) => sum + val, 0) / values.length`). -/
def meanVotes (values : List Int) : ℚ := (values.sum : ℚ) / (values.length : ℚ)

/-- `calculateFinalEstimate(values, scale)` from `server/routes`:
returns 0 when `values` is empty, otherwise the first scale entry `v`
with `v >= avg`, and `scale[scale.length - 1]` when no entry qualifies
(the out-of-bounds read on an empty scale is modelled by the default 0). -/
def calculateFinalEstimate (values : List Int) (scale : List Int) : Int :=
  if values.length = 0 then 0
  else
    match scale.find? (fun (v : Int) => decide (meanVotes values ≤ (v : ℚ))) with
    | some v => v
    | none => scale.getLastD 0

/-- JS `str.split(sep)` for a single-character separator: splitting the
empty string yields `[""]`, and a trailing separator yields a trailing
empty piece. -/
def splitChars (sep : Char) : List Char → List (List Char)
  | [] => [[]]
  | c :: cs =>
    let r := splitChars sep cs
    if c = sep then [] :: r
    else
      match r with
      | [] => [[c]]
      | g :: gs => (c :: g) :: gs

/-- JS `str.toLowerCase()` (character-wise lowering). -/
def jsToLower (s : String) : String := String.mk (s.toList.map Char.toLower)

/-- JS `str.trim()`: strip leading and trailing whitespace. -/
def trimChars (l : List Char) : List Char :=
  ((l.dropWhile (·.isWhitespace)).reverse.dropWhile (·.isWhitespace)).reverse

/-- The test `/^\d+$/.test(s)`: `s` is nonempty and consists only of
ASCII digits. -/
def isDigitsOnly (t : List Char) : Bool := !t.isEmpty && t.all (·.isDigit)

/-- `Number(s)` for a digit-only string `s`. -/
def parseDigitsL (t : List Char) : Nat := t.foldl (fun n c => n * 10 + (c.toNat - 48)) 0

/-- The parsing pipeline of the session form (`onSubmit` in the session
creation page): split the custom scale string on commas, trim each piece,
keep the digit-only pieces, convert to numbers. -/
def parseCustomEntries (s : String) : List Int :=
  (((splitChars ',' s.toList).map trimChars).filter isDigitsOnly).map
    (fun t => (parseDigitsL t : Int))

/-- Stable ascending insertion, modelling the stable JS
`sort((a, b) => a - b)`. -/
def insertAsc (x : Int) : List Int → List Int
  | [] => [x]
  | y :: ys => if x ≤ y then x :: y :: ys else y :: insertAsc x ys

/-- Stable ascending sort (insertion sort). -/
def sortAsc : List Int → List Int
  | [] => []
  | x :: xs => insertAsc x (sortAsc xs)

/-- The scale preparation of `onSubmit` for a custom scale: parse, sort
ascending, fall back to the Fibonacci scale when no entry is valid, and
truncate to the first 100 values when more are supplied. -/
def resolveCustomScale (s : String) : List Int :=
  let customScale := sortAsc (parseCustomEntries s)
  if customScale.isEmpty then generateFibonacciScale
  else if customScale.length > 100 then customScale.take 100
  else customScale

/-! ## Data model (shared/schema.ts)

Entities carry the columns the synchronization core reads and writes.
`createdAt`/`joinedAt` timestamps are omitted (never read by the core).
A session's `scale` column is a JSON string in the source; since it is
only ever produced by `JSON.stringify` of an integer list and consumed by
`JSON.parse`, it is modelled as the integer list itself. -/

structure Session where
  id : String
  name : String
  hostId : Nat
  scale : List Int
  notificationsEnabled : Bool
deriving DecidableEq, Repr

structure UserStory where
  id : Nat
  sessionId : String
  title : String
  description : Option String
  finalEstimate : Option Int
  order : Int
  isActive : Bool
  isCompleted : Bool
deriving DecidableEq, Repr

structure Participant where
  id : String
  sessionId : String
  alias_ : String
  isConnected : Bool
deriving DecidableEq, Repr

structure Vote where
  id : Nat
  participantId : String
  userStoryId : Nat
  value : Int
deriving DecidableEq, Repr

/-! ## Entity Store (MemStorage in server/storage.ts)

JS `Map`s iterate in insertion order; `Map.set` overwrites an existing
key in place and otherwise appends.  They are modelled as lists together
with a replace-or-append `set`. -/

/-- `Map.set` keyed by story id. -/
def setStory (l : List UserStory) (st : UserStory) : List UserStory :=
  if l.any (fun q => q.id == st.id) then l.map (fun q => if q.id == st.id then st else q)
  else l ++ [st]

/-- `Map.set` keyed by participant id. -/
def setParticipant (l : List Participant) (p : Participant) : List Participant :=
  if l.any (fun q => q.id == p.id) then l.map (fun q => if q.id == p.id then p else q)
  else l ++ [p]

/-- `Map.set` keyed by vote id. -/
def setVote (l : List Vote) (v : Vote) : List Vote :=
  if l.any (fun q => q.id == v.id) then l.map (fun q => if q.id == v.id then v else q)
  else l ++ [v]

/-- Stable ascending insertion by story order (for the stable JS
`sort((a, b) => a.order - b.order)`). -/
def insertByOrder (x : UserStory) : List UserStory → List UserStory
  | [] => [x]
  | y :: ys => if x.order ≤ y.order then x :: y :: ys else y :: insertByOrder x ys

/-- Stable sort of stories by ascending order. -/
def sortByOrder : List UserStory → List UserStory
  | [] => []
  | x :: xs => insertByOrder x (sortByOrder xs)

/-- The in-memory entity store: the `Map` fields plus id counters of
`MemStorage` (user accounts are elided; the host is identified by the
`hostId` a command carries). -/
structure Storage where
  sessions : List Session
  userStories : List UserStory
  participants : List Participant
  votes : List Vote
  userStoryIdCounter : Nat
  voteIdCounter : Nat
deriving DecidableEq, Repr

namespace Storage

def empty : Storage :=
  { sessions := [], userStories := [], participants := [], votes := []
    userStoryIdCounter := 1, voteIdCounter := 1 }

/-- `getSession`. -/
def getSession (s : Storage) (id : String) : Option Session :=
  s.sessions.find? (fun x => x.id == id)

/-- `getUserStories`: the session's stories sorted ascending by order. -/
def getUserStories (s : Storage) (sessionId : String) : List UserStory :=
  sortByOrder (s.userStories.filter (fun st => st.sessionId == sessionId))

/-- `getUserStory`. -/
def getUserStory (s : Storage) (id : Nat) : Option UserStory :=
  s.userStories.find? (fun st => st.id == id)

/-- `getActiveUserStory`: first story of the session with `isActive`. -/
def getActiveUserStory (s : Storage) (sessionId : String) : Option UserStory :=
  s.userStories.find? (fun st => st.sessionId == sessionId && st.isActive)

/-- `createUserStory`: insert a fresh record (inactive, incomplete, no
estimate) under the next counter id. -/
def createUserStory (s : Storage) (sessionId : String) (title : String)
    (description : Option String) (order : Int) : Storage × UserStory :=
  let st : UserStory :=
    { id := s.userStoryIdCounter, sessionId := sessionId, title := title
      description := description, finalEstimate := none, order := order
      isActive := false, isCompleted := false }
  ({ s with userStories := setStory s.userStories st
            userStoryIdCounter := s.userStoryIdCounter + 1 }, st)

/-- `updateUserStory` specialised to a record-update function `f`
(absent id: no change, matching the source's early return). -/
def updateStoryWith (s : Storage) (id : Nat) (f : UserStory → UserStory) : Storage :=
  { s with userStories := s.userStories.map (fun q => if q.id == id then f q else q) }

/-- `setActiveUserStory`: deactivate the currently active story of the
session (when it differs from the target), then activate the target. -/
def setActiveUserStory (s : Storage) (sessionId : String) (userStoryId : Nat) : Storage :=
  let s1 :=
    match s.getActiveUserStory sessionId with
    | some cur =>
        if cur.id ≠ userStoryId then
          s.updateStoryWith cur.id (fun q => { q with isActive := false })
        else s
    | none => s
  s1.updateStoryWith userStoryId (fun q => { q with isActive := true })

/-- `markUserStoryCompleted`: set inactive, completed, and the estimate
(the estimate is the raw client-supplied payload value, possibly null). -/
def markUserStoryCompleted (s : Storage) (id : Nat) (finalEstimate : Option Int) : Storage :=
  s.updateStoryWith id
    (fun q => { q with isActive := false, isCompleted := true, finalEstimate := finalEstimate })

/-- `getParticipant`. -/
def getParticipant (s : Storage) (id : String) : Option Participant :=
  s.participants.find? (fun p => p.id == id)

/-- `getParticipantByAlias`: first participant of the session whose alias
matches case-insensitively (`toLowerCase` on both sides). -/
def getParticipantByAlias (s : Storage) (sessionId : String) (alias_ : String) :
    Option Participant :=
  s.participants.find?
    (fun p => p.sessionId == sessionId && jsToLower p.alias_ == jsToLower alias_)

/-- `getSessionParticipants`. -/
def getSessionParticipants (s : Storage) (sessionId : String) : List Participant :=
  s.participants.filter (fun p => p.sessionId == sessionId)

/-- `updateParticipant` specialised to a record-update function. -/
def updateParticipantWith (s : Storage) (id : String) (f : Participant → Participant) : Storage :=
  { s with participants := s.participants.map (fun q => if q.id == id then f q else q) }

/-- `updateParticipantConnection`. -/
def updateParticipantConnection (s : Storage) (id : String) (isConnected : Bool) : Storage :=
  s.updateParticipantWith id (fun p => { p with isConnected := isConnected })

/-- `getVote`: first vote by the (participant, story) pair. -/
def getVote (s : Storage) (participantId : String) (userStoryId : Nat) : Option Vote :=
  s.votes.find? (fun v => v.participantId == participantId && v.userStoryId == userStoryId)

/-- `getVotesByUserStory`. -/
def getVotesByUserStory (s : Storage) (userStoryId : Nat) : List Vote :=
  s.votes.filter (fun v => v.userStoryId == userStoryId)

/-- `createOrUpdateVote`: overwrite the value of an existing
(participant, story) vote, else insert a fresh record. -/
def createOrUpdateVote (s : Storage) (participantId : String) (userStoryId : Nat)
    (value : Int) : Storage :=
  match s.getVote participantId userStoryId with
  | some ex => { s with votes := setVote s.votes { ex with value := value } }
  | none =>
      let v : Vote :=
        { id := s.voteIdCounter, participantId := participantId
          userStoryId := userStoryId, value := value }
      { s with votes := setVote s.votes v, voteIdCounter := s.voteIdCounter + 1 }

/-- `clearVotesForUserStory`: delete every vote of the story. -/
def clearVotesForUserStory (s : Storage) (userStoryId : Nat) : Storage :=
  { s with votes := s.votes.filter (fun v => v.userStoryId != userStoryId) }

end Storage

/-! ## Session Gateway (WebSocket handlers in server/routes) -/

/-- A registered connection's identity (`WSClient`): which session and
participant the connection belongs to, and whether it is the host.
The authentication-token bookkeeping is external and elided. -/
structure WSClient where
  sessionId : Option String
  participantId : Option String
  isHost : Bool
deriving DecidableEq, Repr

def WSClient.fresh : WSClient := { sessionId := none, participantId := none, isHost := false }

/-- Server→client protocol messages (payload fields restricted to those
the claims inspect). -/
inductive ServerMsg where
  | error (message : String)
  | sessionJoined
  | hostSessionJoined
  | hostConnected
  | participantJoined (participantId : String)
  | participantDisconnected (participantId : String)
  | voteRecorded (userStoryId : Nat) (value : Int)
  | participantVoted (participantId : String) (userStoryId : Nat)
  | allVoted (userStoryId : Nat) (notificationsEnabled : Bool)
  | votesRevealed (userStoryId : Nat) (finalEstimate : Int)
  | votingRestarted (userStoryId : Nat)
  | storySkipped (previousStoryId : Nat) (nextStoryId : Nat)
  | nextStoryActivated (completedStoryId : Nat) (nextStoryId : Nat) (finalEstimate : Option Int)
  | allStoriesCompleted (lastStoryId : Nat) (finalEstimate : Option Int)
  | sessionDeleted
deriving DecidableEq, Repr

/-- An emitted output: a direct reply to the sender, or a
`broadcastToSession` call. -/
inductive Out where
  | reply (m : ServerMsg)
  | broadcast (sessionId : String) (m : ServerMsg)
deriving DecidableEq, Repr

/-- `handleJoinSession`: note that the connection's `(sessionId,
participantId)` registration happens before the participant lookup, so it
persists even when the participant does not exist. -/
def handleJoinSession (store : Storage) (c : WSClient) (sessionId participantId : String) :
    Storage × WSClient × List Out :=
  match store.getSession sessionId with
  | none => (store, c, [.reply (.error "Session not found")])
  | some _ =>
    let c1 := { c with sessionId := some sessionId, participantId := some participantId }
    match store.getParticipant participantId with
    | none => (store, c1, [.reply (.error "Participant not found")])
    | some _ =>
      let store1 := store.updateParticipantConnection participantId true
      (store1, c1, [.reply .sessionJoined, .broadcast sessionId (.participantJoined participantId)])

/-- `handleHostJoinSession` after successful token verification (the
Firebase call is external): check the session exists and is owned by the
caller, then register the connection as the session's host. -/
def handleHostJoinSession (store : Storage) (c : WSClient) (sessionId : String) (userId : Nat) :
    Storage × WSClient × List Out :=
  match store.getSession sessionId with
  | none => (store, c, [.reply (.error "Session not found")])
  | some s =>
    if s.hostId ≠ userId then
      (store, c, [.reply (.error "You are not the host of this session")])
    else
      let c1 := { c with sessionId := some sessionId, isHost := true }
      (store, c1, [.reply .hostSessionJoined, .broadcast sessionId .hostConnected])

/-- The `activeParticipants` of the all-voted check in `handleVote`:
participants of the session whose connection flag is set. -/
def voteActiveParticipants (store1 : Storage) (sessionId : String) : List Participant :=
  (store1.getSessionParticipants sessionId).filter (fun p => p.isConnected)

/-- The `allVoted` boolean of `handleVote`: every currently-connected
participant has a vote recorded for the story. -/
def voteAllVoted (store1 : Storage) (sessionId : String) (userStoryId : Nat) : Bool :=
  (voteActiveParticipants store1 sessionId).all
    (fun p => (store1.getVotesByUserStory userStoryId).any (fun v => v.participantId == p.id))

/-- `session?.notificationsEnabled || false` — the flag put in the
`all_voted` payload (it does not gate the broadcast). -/
def voteNotif (store1 : Storage) (sessionId : String) : Bool :=
  match store1.getSession sessionId with
  | some s => s.notificationsEnabled
  | none => false

/-- `handleVote`: authorization check, story-state check, vote upsert,
confirmation, `participant_voted` broadcast, and the all-voted check. -/
def handleVote (store : Storage) (c : WSClient) (sessionId : String) (userStoryId : Nat)
    (value : Int) : Storage × List Out :=
  match c.participantId with
  | none => (store, [.reply (.error "Not authorized to vote in this session")])
  | some pid =>
    if c.sessionId ≠ some sessionId then
      (store, [.reply (.error "Not authorized to vote in this session")])
    else
      match store.getUserStory userStoryId with
      | none => (store, [.reply (.error "Cannot vote on this story")])
      | some st =>
        if st.sessionId ≠ sessionId ∨ st.isActive = false ∨ st.isCompleted = true then
          (store, [.reply (.error "Cannot vote on this story")])
        else
          let store1 := store.createOrUpdateVote pid userStoryId value
          (store1,
            [.reply (.voteRecorded userStoryId value),
             .broadcast sessionId (.participantVoted pid userStoryId)] ++
            (if voteAllVoted store1 sessionId userStoryId ∧
                (voteActiveParticipants store1 sessionId).length > 0 then
              [.broadcast sessionId (.allVoted userStoryId (voteNotif store1 sessionId))]
            else []))

/-- `handleRevealVotes`: host-only; requires the story to exist in the
session and be active; computes the estimate and broadcasts; no state
mutation. -/
def handleRevealVotes (store : Storage) (c : WSClient) (sessionId : String) (userStoryId : Nat) :
    Storage × List Out :=
  if ¬(c.isHost = true ∧ c.sessionId = some sessionId) then
    (store, [.reply (.error "Only the host can reveal votes")])
  else
    match store.getUserStory userStoryId with
    | none => (store, [.reply (.error "Cannot reveal votes for this story")])
    | some st =>
      if st.sessionId ≠ sessionId ∨ st.isActive = false then
        (store, [.reply (.error "Cannot reveal votes for this story")])
      else
        let voteValues := (store.getVotesByUserStory userStoryId).map (fun v => v.value)
        let scale :=
          match store.getSession sessionId with
          | some s => s.scale
          | none => generateFibonacciScale
        (store,
          [.broadcast sessionId
            (.votesRevealed userStoryId (calculateFinalEstimate voteValues scale))])

/-- `handleRestartVote`: host-only; requires the story to exist in the
session and be active; clears the story's votes. -/
def handleRestartVote (store : Storage) (c : WSClient) (sessionId : String) (userStoryId : Nat) :
    Storage × List Out :=
  if ¬(c.isHost = true ∧ c.sessionId = some sessionId) then
    (store, [.reply (.error "Only the host can restart voting")])
  else
    match store.getUserStory userStoryId with
    | none => (store, [.reply (.error "Cannot restart voting for this story")])
    | some st =>
      if st.sessionId ≠ sessionId ∨ st.isActive = false then
        (store, [.reply (.error "Cannot restart voting for this story")])
      else
        (store.clearVotesForUserStory userStoryId,
          [.broadcast sessionId (.votingRestarted userStoryId)])

/-- `slice(currentIndex + 1)` over the ordered story list: JS `findIndex`
yields -1 when the id is absent, and `slice(0)` is then the whole list. -/
def storiesAfter (all : List UserStory) (storyId : Nat) : List UserStory :=
  match all.findIdx? (fun s => s.id == storyId) with
  | some i => all.drop (i + 1)
  | none => all

/-- `handleSkipStory`: host-only; requires the story to exist in the
session and be active; deactivates it (leaving it incomplete) and
activates the next not-completed story in order, if any. -/
def handleSkipStory (store : Storage) (c : WSClient) (sessionId : String) (userStoryId : Nat) :
    Storage × List Out :=
  if ¬(c.isHost = true ∧ c.sessionId = some sessionId) then
    (store, [.reply (.error "Only the host can skip stories")])
  else
    match store.getUserStory userStoryId with
    | none => (store, [.reply (.error "Cannot skip this story")])
    | some st =>
      if st.sessionId ≠ sessionId ∨ st.isActive = false then
        (store, [.reply (.error "Cannot skip this story")])
      else
        let store1 := store.updateStoryWith userStoryId (fun q => { q with isActive := false })
        let nexts :=
          (storiesAfter (store1.getUserStories sessionId) userStoryId).filter
            (fun s => !s.isCompleted)
        match nexts with
        | n :: _ =>
          let store2 := (store1.setActiveUserStory sessionId n.id).clearVotesForUserStory n.id
          (store2, [.broadcast sessionId (.storySkipped userStoryId n.id)])
        | [] =>
          (store1, [.broadcast sessionId (.allStoriesCompleted userStoryId none)])

/-- `handleNextStory`: host-only.  The referenced story's state is not
validated: whatever story the id names (if any) is marked completed with
the client-supplied estimate, and the next not-completed story after its
position is activated. -/
def handleNextStory (store : Storage) (c : WSClient) (sessionId : String) (currentStoryId : Nat)
    (finalEstimate : Option Int) : Storage × List Out :=
  if ¬(c.isHost = true ∧ c.sessionId = some sessionId) then
    (store, [.reply (.error "Only the host can move to the next story")])
  else
    let store1 := store.markUserStoryCompleted currentStoryId finalEstimate
    let nexts :=
      (storiesAfter (store1.getUserStories sessionId) currentStoryId).filter
        (fun s => !s.isCompleted)
    match nexts with
    | n :: _ =>
      let store2 := (store1.setActiveUserStory sessionId n.id).clearVotesForUserStory n.id
      (store2, [.broadcast sessionId (.nextStoryActivated currentStoryId n.id finalEstimate)])
    | [] =>
      (store1, [.broadcast sessionId (.allStoriesCompleted currentStoryId finalEstimate)])

/-! ## REST handlers (server/routes) -/

/-- Outcome of `POST /sessions/:id/join`. -/
inductive JoinOutcome where
  | sessionNotFound
  | aliasInUse
  | rejoined (participant : Option Participant)
  | created (participant : Participant)
deriving DecidableEq, Repr

/-- `POST /sessions/:id/join`: reject when the alias is connected,
reattach (flip liveness) when it exists but is disconnected, otherwise
create a fresh participant under the externally generated uuid `newPid`. -/
def joinRest (store : Storage) (sessionId alias_ newPid : String) : Storage × JoinOutcome :=
  match store.getSession sessionId with
  | none => (store, .sessionNotFound)
  | some _ =>
    match store.getParticipantByAlias sessionId alias_ with
    | some p =>
      if p.isConnected then (store, .aliasInUse)
      else
        let store1 := store.updateParticipantWith p.id (fun q => { q with isConnected := true })
        (store1, .rejoined (store1.getParticipant p.id))
    | none =>
      let p : Participant :=
        { id := newPid, sessionId := sessionId, alias_ := alias_, isConnected := true }
      ({ store with participants := setParticipant store.participants p }, .created p)

/-- `POST /sessions`: create the session record, create its stories with
`order := index`, and activate the first story of the ordered list.
`sid` is the externally generated uuid. -/
def createSessionOp (store : Storage) (sid name : String) (hostId : Nat) (scale : List Int)
    (notif : Bool) (stories : List (String × Option String)) : Storage :=
  let store1 :=
    { store with
        sessions := store.sessions ++
          [({ id := sid, name := name, hostId := hostId, scale := scale
              notificationsEnabled := notif } : Session)] }
  let store2 :=
    (stories.enum).foldl
      (fun acc it => (acc.createUserStory sid it.2.1 it.2.2 (Int.ofNat it.1)).1) store1
  match store2.getUserStories sid with
  | [] => store2
  | first :: _ => store2.setActiveUserStory sid first.id

/-- `DELETE /sessions/:id` body (post host check): delete the session's
votes, stories and participants, then the session itself. -/
def deleteSessionOp (store : Storage) (sid : String) : Storage :=
  let storyIds := (store.userStories.filter (fun st => st.sessionId == sid)).map (fun st => st.id)
  { store with
      votes := store.votes.filter (fun v => !storyIds.contains v.userStoryId)
      userStories := store.userStories.filter (fun st => st.sessionId != sid)
      participants := store.participants.filter (fun p => p.sessionId != sid)
      sessions := store.sessions.filter (fun s => s.id != sid) }

/-! ## System state machine

One step per inbound client command, combining the entity store with the
process-wide connection registry (`clients` map keyed by connection). -/

structure SysState where
  store : Storage
  clients : List (Nat × WSClient)
deriving DecidableEq, Repr

def SysState.init : SysState := { store := Storage.empty, clients := [] }

/-- `Map.set` keyed by connection handle. -/
def setClient (l : List (Nat × WSClient)) (conn : Nat) (c : WSClient) : List (Nat × WSClient) :=
  if l.any (fun q => q.1 == conn) then l.map (fun q => if q.1 == conn then (conn, c) else q)
  else l ++ [(conn, c)]

def getClient (l : List (Nat × WSClient)) (conn : Nat) : Option WSClient :=
  (l.find? (fun q => q.1 == conn)).map (fun q => q.2)

/-- Inbound commands: the client→server protocol messages plus the REST
operations that mutate session state. -/
inductive Cmd where
  | createSession (sid name : String) (hostId : Nat) (scale : List Int) (notif : Bool)
      (stories : List (String × Option String))
  | deleteSession (sid : String) (userId : Nat)
  | joinRest (sid alias_ newPid : String)
  | wsConnect (conn : Nat)
  | wsDisconnect (conn : Nat)
  | wsJoinSession (conn : Nat) (sid pid : String)
  | wsHostJoin (conn : Nat) (sid : String) (userId : Nat)
  | wsVote (conn : Nat) (sid : String) (storyId : Nat) (value : Int)
  | wsReveal (conn : Nat) (sid : String) (storyId : Nat)
  | wsRestart (conn : Nat) (sid : String) (storyId : Nat)
  | wsSkip (conn : Nat) (sid : String) (storyId : Nat)
  | wsNext (conn : Nat) (sid : String) (storyId : Nat) (finalEstimate : Option Int)

/-- One command against the system.  `createSession` fires only for a
fresh uuid (uuidv4 collisions are assumed not to occur); WS commands on
an unregistered connection are dropped (the server only dispatches
messages of open registered sockets). -/
def stepCmd (st : SysState) (cmd : Cmd) : SysState × List Out :=
  match cmd with
  | .createSession sid name hostId scale notif stories =>
    if st.store.sessions.any (fun s => s.id == sid) then (st, [])
    else ({ st with store := createSessionOp st.store sid name hostId scale notif stories }, [])
  | .deleteSession sid userId =>
    match st.store.getSession sid with
    | none => (st, [])
    | some s =>
      if s.hostId ≠ userId then (st, [])
      else ({ st with store := deleteSessionOp st.store sid },
        [.broadcast sid .sessionDeleted])
  | .joinRest sid alias_ newPid =>
    let r := joinRest st.store sid alias_ newPid
    ({ st with store := r.1 }, [])
  | .wsConnect conn =>
    ({ st with clients := setClient st.clients conn WSClient.fresh }, [])
  | .wsDisconnect conn =>
    match getClient st.clients conn with
    | none => (st, [])
    | some c =>
      match c.participantId with
      | some pid =>
        ({ store := st.store.updateParticipantConnection pid false
           clients := st.clients.filter (fun q => q.1 != conn) },
         [.broadcast (c.sessionId.getD "") (.participantDisconnected pid)])
      | none => ({ st with clients := st.clients.filter (fun q => q.1 != conn) }, [])
  | .wsJoinSession conn sid pid =>
    match getClient st.clients conn with
    | none => (st, [])
    | some c =>
      let r := handleJoinSession st.store c sid pid
      ({ store := r.1, clients := setClient st.clients conn r.2.1 }, r.2.2)
  | .wsHostJoin conn sid userId =>
    match getClient st.clients conn with
    | none => (st, [])
    | some c =>
      let r := handleHostJoinSession st.store c sid userId
      ({ store := r.1, clients := setClient st.clients conn r.2.1 }, r.2.2)
  | .wsVote conn sid storyId value =>
    match getClient st.clients conn with
    | none => (st, [])
    | some c =>
      let r := handleVote st.store c sid storyId value
      ({ st with store := r.1 }, r.2)
  | .wsReveal conn sid storyId =>
    match getClient st.clients conn with
    | none => (st, [])
    | some c =>
      let r := handleRevealVotes st.store c sid storyId
      ({ st with store := r.1 }, r.2)
  | .wsRestart conn sid storyId =>
    match getClient st.clients conn with
    | none => (st, [])
    | some c =>
      let r := handleRestartVote st.store c sid storyId
      ({ st with store := r.1 }, r.2)
  | .wsSkip conn sid storyId =>
    match getClient st.clients conn with
    | none => (st, [])
    | some c =>
      let r := handleSkipStory st.store c sid storyId
      ({ st with store := r.1 }, r.2)
  | .wsNext conn sid storyId finalEstimate =>
    match getClient st.clients conn with
    | none => (st, [])
    | some c =>
      let r := handleNextStory st.store c sid storyId finalEstimate
      ({ st with store := r.1 }, r.2)

/-- Run a command sequence from a state. -/
def runCmds (st : SysState) (cmds : List Cmd) : SysState :=
  cmds.foldl (fun s c => (stepCmd s c).1) st

/-- Number of active stories a session has. -/
def countActive (l : List UserStory) (sessionId : String) : Nat :=
  l.countP (fun st => st.sessionId == sessionId && st.isActive)

/-- Story-level invariants maintained by every transition: story ids are
unique (`Map` keys), each session has at most one active story, completed
stories are inactive, and every story belongs to an existing session. -/
def StateInv (s : Storage) : Prop :=
  (s.userStories.map (fun st => st.id)).Nodup ∧
  (∀ sid, countActive s.userStories sid ≤ 1) ∧
  (∀ st ∈ s.userStories, st.isCompleted = true → st.isActive = false) ∧
  (∀ st ∈ s.userStories, ∃ sess ∈ s.sessions, sess.id = st.sessionId)

/-! ### Concrete fixtures and traces used by witnesses and counterexamples -/

/-- A session, a disconnected participant, and a store holding them. -/
def fixSession : Session :=
  { id := "s1", name := "sess", hostId := 1, scale := generateFibonacciScale
    notificationsEnabled := false }

def fixParticipantD : Participant :=
  { id := "p1", sessionId := "s1", alias_ := "Alice", isConnected := false }

def fixStoreJoin : Storage :=
  { sessions := [fixSession], userStories := [], participants := [fixParticipantD]
    votes := [], userStoryIdCounter := 1, voteIdCounter := 1 }

/-- Create a one-story session (notifications off), join a participant
over REST, connect and register it over the socket. -/
def cmdsBase : List Cmd :=
  [.createSession "s1" "sess" 1 generateFibonacciScale false [("A", none)],
   .joinRest "s1" "alice" "p1",
   .wsConnect 0,
   .wsJoinSession 0 "s1" "p1"]

/-- Create a two-story session and join the host over the socket. -/
def cmdsHost : List Cmd :=
  [.createSession "s1" "sess" 1 generateFibonacciScale false [("A", none), ("B", none)],
   .wsConnect 0,
   .wsHostJoin 0 "s1" 1]

/-- After `cmdsHost`, complete story 1 with estimate 5 (activating story 2). -/
def cmdsNextOnce : List Cmd := cmdsHost ++ [.wsNext 0 "s1" 1 (some 5)]

/-- Create a one-story session and register a connection under a
participant id that does not exist. -/
def cmdsGhost : List Cmd :=
  [.createSession "s1" "sess" 1 generateFibonacciScale false [("A", none)],
   .wsConnect 0,
   .wsJoinSession 0 "s1" "ghost"]

/-! ### Scale Resolver lemmas -/

/-- On a sorted scale, `find?` for the first entry `≥ q` returns the least
entry `≥ q`, and returns `none` exactly when every entry is `< q`. -/
theorem find?_ge_sorted (q : ℚ) : ∀ (scale : List Int), scale.Sorted (· ≤ ·) →
    (match scale.find? (fun (v : Int) => decide (q ≤ (v : ℚ))) with
     | some r => r ∈ scale ∧ q ≤ (r : ℚ) ∧ ∀ v ∈ scale, q ≤ (v : ℚ) → r ≤ v
     | none => ∀ v ∈ scale, (v : ℚ) < q) := by
  intro scale
  induction scale with
  | nil => intro _; simp [List.find?]
  | cons a tl ih =>
    intro hsort
    have hsort' : tl.Sorted (· ≤ ·) := hsort.of_cons
    by_cases hqa : q ≤ (a : ℚ)
    · simp only [List.find?, decide_eq_true hqa]
      refine ⟨List.mem_cons_self a tl, hqa, ?_⟩
      intro v hv _
      rcases List.mem_cons.mp hv with h | h
      · exact le_of_eq h.symm
      · exact List.rel_of_sorted_cons hsort v h
    · have hdec : (decide (q ≤ (a : ℚ))) = false := decide_eq_false hqa
      simp only [List.find?, hdec]
      have hih := ih hsort'
      cases hfind : tl.find? (fun (v : Int) => decide (q ≤ (v : ℚ))) with
      | some r =>
        rw [hfind] at hih
        refine ⟨List.mem_cons_of_mem a hih.1, hih.2.1, ?_⟩
        intro v hv hqv
        rcases List.mem_cons.mp hv with h | h
        · subst h; exact absurd hqv hqa
        · exact hih.2.2 v h hqv
      | none =>
        rw [hfind] at hih
        intro v hv
        rcases List.mem_cons.mp hv with h | h
        · subst h; exact lt_of_not_le hqa
        · exact hih v h

/-- On a sorted nonempty list, `getLastD` is a member and an upper bound. -/
theorem getLastD_mem_and_ub : ∀ (l : List Int), l ≠ [] → l.Sorted (· ≤ ·) →
    l.getLastD 0 ∈ l ∧ ∀ v ∈ l, v ≤ l.getLastD 0 := by
  intro l
  induction l with
  | nil => intro h; exact absurd rfl h
  | cons a tl ih =>
    intro _ hsort
    cases tl with
    | nil => simp
    | cons b tl' =>
      have h' := ih (by simp) hsort.of_cons
      have hlast : (a :: b :: tl').getLastD 0 = (b :: tl').getLastD 0 := by
        simp [List.getLastD]
      constructor
      · rw [hlast]; exact List.mem_cons_of_mem a h'.1
      · intro v hv
        rcases List.mem_cons.mp hv with h | h
        · subst h
          rw [hlast]
          exact List.rel_of_sorted_cons hsort _ h'.1
        · rw [hlast]; exact h'.2 v h

/-- C1: for a non-empty vote list and non-empty ascending scale,
`calculateFinalEstimate` returns the smallest scale element `≥` the
arithmetic mean, or the scale's maximum element when the mean exceeds
every scale value; for an empty vote list it returns 0; and
`estimate([3,5,8], fibonacciScale) = 8`. -/
theorem calculateFinalEstimate_spec :
    (∀ scale : List Int, calculateFinalEstimate [] scale = 0) ∧
    calculateFinalEstimate [3, 5, 8] generateFibonacciScale = 8 ∧
    (∀ (votes scale : List Int), votes ≠ [] → scale ≠ [] → scale.Sorted (· ≤ ·) →
      ((∃ v ∈ scale, meanVotes votes ≤ (v : ℚ)) →
        calculateFinalEstimate votes scale ∈ scale ∧
        meanVotes votes ≤ (calculateFinalEstimate votes scale : ℚ) ∧
        ∀ v ∈ scale, meanVotes votes ≤ (v : ℚ) → calculateFinalEstimate votes scale ≤ v) ∧
      ((∀ v ∈ scale, (v : ℚ) < meanVotes votes) →
        calculateFinalEstimate votes scale ∈ scale ∧
        ∀ v ∈ scale, v ≤ calculateFinalEstimate votes scale)) := by
  refine ⟨fun scale => by simp [calculateFinalEstimate], ?_, ?_⟩
  · norm_num [calculateFinalEstimate, meanVotes, generateFibonacciScale, List.find?]
  · intro votes scale hv hs hsort
    have hlen : votes.length ≠ 0 := fun h => hv (List.length_eq_zero.mp h)
    have hmain := find?_ge_sorted (meanVotes votes) scale hsort
    constructor
    · intro ⟨w, hw, hle⟩
      cases hfind : scale.find? (fun (v : Int) => decide (meanVotes votes ≤ (v : ℚ))) with
      | some r =>
        rw [hfind] at hmain
        simpa [calculateFinalEstimate, hlen, hfind] using hmain
      | none =>
        rw [hfind] at hmain
        exact absurd hle (not_le_of_lt (hmain w hw))
    · intro hall
      cases hfind : scale.find? (fun (v : Int) => decide (meanVotes votes ≤ (v : ℚ))) with
      | some r =>
        rw [hfind] at hmain
        exact absurd hmain.2.1 (not_le_of_lt (hall r hmain.1))
      | none =>
        have hget := getLastD_mem_and_ub scale hs hsort
        simpa [calculateFinalEstimate, hlen, hfind] using hget

/-- Witness for C1 at votes `[3,5,8]` over the Fibonacci scale
(mean 16/3; the returned value 8 is the least scale element above it). -/
theorem calculateFinalEstimate_spec_witness :
    calculateFinalEstimate [3, 5, 8] generateFibonacciScale ∈ generateFibonacciScale ∧
    meanVotes [3, 5, 8] ≤ (calculateFinalEstimate [3, 5, 8] generateFibonacciScale : ℚ) ∧
    ∀ v ∈ generateFibonacciScale,
      meanVotes [3, 5, 8] ≤ (v : ℚ) → calculateFinalEstimate [3, 5, 8] generateFibonacciScale ≤ v :=
  (calculateFinalEstimate_spec.2.2 [3, 5, 8] generateFibonacciScale (by simp)
      (by simp [generateFibonacciScale]) (by norm_num [generateFibonacciScale])).1
    ⟨8, by norm_num [generateFibonacciScale], by norm_num [meanVotes]⟩

/-! ### Custom scale lemmas (C2) -/

theorem mem_insertAsc {y x : Int} : ∀ {l : List Int}, y ∈ insertAsc x l ↔ y = x ∨ y ∈ l := by
  intro l
  induction l with
  | nil => simp [insertAsc]
  | cons a tl ih =>
    by_cases h : x ≤ a
    · simp [insertAsc, h]
    · simp only [insertAsc, if_neg h, List.mem_cons, ih]
      tauto

theorem length_insertAsc (x : Int) : ∀ (l : List Int), (insertAsc x l).length = l.length + 1 := by
  intro l
  induction l with
  | nil => rfl
  | cons a tl ih =>
    by_cases h : x ≤ a
    · simp [insertAsc, h]
    · simp [insertAsc, h, ih]

theorem sorted_insertAsc (x : Int) : ∀ (l : List Int), l.Sorted (· ≤ ·) →
    (insertAsc x l).Sorted (· ≤ ·) := by
  intro l
  induction l with
  | nil => intro _; simp [insertAsc]
  | cons a tl ih =>
    intro hsort
    by_cases h : x ≤ a
    · simp only [insertAsc, if_pos h]
      refine List.sorted_cons.mpr ⟨?_, hsort⟩
      intro b hb
      rcases List.mem_cons.mp hb with hb | hb
      · exact hb ▸ h
      · exact le_trans h (List.rel_of_sorted_cons hsort b hb)
    · simp only [insertAsc, if_neg h]
      refine List.sorted_cons.mpr ⟨?_, ih hsort.of_cons⟩
      intro b hb
      rcases mem_insertAsc.mp hb with hb | hb
      · exact hb ▸ le_of_not_le h
      · exact List.rel_of_sorted_cons hsort b hb

theorem mem_sortAsc {y : Int} : ∀ {l : List Int}, y ∈ sortAsc l ↔ y ∈ l := by
  intro l
  induction l with
  | nil => simp [sortAsc]
  | cons a tl ih => simp [sortAsc, mem_insertAsc, ih]

theorem length_sortAsc : ∀ (l : List Int), (sortAsc l).length = l.length := by
  intro l
  induction l with
  | nil => rfl
  | cons a tl ih => simp [sortAsc, length_insertAsc, ih]

theorem sorted_sortAsc : ∀ (l : List Int), (sortAsc l).Sorted (· ≤ ·) := by
  intro l
  induction l with
  | nil => simp [sortAsc]
  | cons a tl ih => exact sorted_insertAsc a _ ih

/-- C2 counterexample: the custom-scale resolution neither de-duplicates
(`"1,1"` resolves to `[1,1]`, not `[1]`) nor discards non-positive
integer entries (`"0"` resolves to `[0]` instead of falling back to the
built-in scale). -/
theorem resolveCustomScale_counterexample :
    resolveCustomScale "1,1" = [1, 1] ∧ resolveCustomScale "1,1" ≠ [1] ∧
    resolveCustomScale "0" = [0] ∧ resolveCustomScale "0" ≠ generateFibonacciScale := by
  refine ⟨by decide, by decide, by decide, by decide⟩

/-- C2 (amended): resolving a custom scale string keeps exactly the
comma-separated entries that are digit-only strings (nonnegative
integers; duplicates are retained), sorts them ascending, truncates to
the first 100 values after sorting, and falls back to the built-in
Fibonacci scale when no entry is valid; `"1,2,x,50,3"` resolves to
`[1,2,3,50]`. -/
theorem resolveCustomScale_spec :
    resolveCustomScale "1,2,x,50,3" = [1, 2, 3, 50] ∧
    (∀ s, (resolveCustomScale s).Sorted (· ≤ ·)) ∧
    (∀ s, (resolveCustomScale s).length ≤ 100) ∧
    (∀ s, parseCustomEntries s = [] → resolveCustomScale s = generateFibonacciScale) ∧
    (∀ s, parseCustomEntries s ≠ [] →
      resolveCustomScale s = (sortAsc (parseCustomEntries s)).take 100) ∧
    (∀ s, ∀ v ∈ resolveCustomScale s, 0 ≤ v) := by
  have hcase : ∀ s : String, (parseCustomEntries s = [] ∧
      resolveCustomScale s = generateFibonacciScale) ∨
      (parseCustomEntries s ≠ [] ∧
      resolveCustomScale s = (sortAsc (parseCustomEntries s)).take 100) := by
    intro s
    by_cases he : (sortAsc (parseCustomEntries s)).isEmpty
    · refine Or.inl ⟨?_, by simp [resolveCustomScale, he]⟩
      rw [List.isEmpty_iff, ← List.length_eq_zero, length_sortAsc, List.length_eq_zero] at he
      exact he
    · have hne : parseCustomEntries s ≠ [] := by
        rw [List.isEmpty_iff, ← List.length_eq_zero, length_sortAsc, List.length_eq_zero] at he
        exact he
      refine Or.inr ⟨hne, ?_⟩
      by_cases hl : (sortAsc (parseCustomEntries s)).length > 100
      · simp [resolveCustomScale, he, hl]
      · have he' : (sortAsc (parseCustomEntries s)).isEmpty = false := by
          revert he; cases (sortAsc (parseCustomEntries s)).isEmpty <;> simp
        simp [resolveCustomScale, he', hl, List.take_of_length_le (le_of_not_lt hl)]
  refine ⟨by decide, ?_, ?_, ?_, ?_, ?_⟩
  · intro s
    rcases hcase s with ⟨_, h⟩ | ⟨_, h⟩ <;> rw [h]
    · decide
    · exact (sorted_sortAsc (parseCustomEntries s)).sublist (List.take_sublist _ _)
  · intro s
    rcases hcase s with ⟨_, h⟩ | ⟨_, h⟩ <;> rw [h]
    · decide
    · simp [List.length_take]
  · intro s hnil
    have hmt : sortAsc (parseCustomEntries s) = [] := by rw [hnil]; rfl
    simp [resolveCustomScale, hmt]
  · intro s hne
    rcases hcase s with ⟨h, _⟩ | ⟨_, h⟩
    · exact absurd h hne
    · exact h
  · intro s v hv
    rcases hcase s with ⟨_, h⟩ | ⟨_, h⟩ <;> rw [h] at hv
    · have hfib : ∀ w ∈ generateFibonacciScale, (0 : Int) ≤ w := by decide
      exact hfib v hv
    · have hmem : v ∈ sortAsc (parseCustomEntries s) := List.mem_of_mem_take hv
      have hmem' : v ∈ parseCustomEntries s := mem_sortAsc.mp hmem
      rcases List.mem_map.mp hmem' with ⟨t, _, rfl⟩
      exact Int.natCast_nonneg _

/-- Witness for C2 (amended) at input `"1,1"`: the validity hypothesis is
discharged concretely and the characterization evaluated. -/
theorem resolveCustomScale_spec_witness :
    parseCustomEntries "1,1" ≠ [] ∧
    resolveCustomScale "1,1" = (sortAsc (parseCustomEntries "1,1")).take 100 :=
  ⟨by decide, resolveCustomScale_spec.2.2.2.2.1 "1,1" (by decide)⟩

/-! ### Generic association-list lemmas -/

/-- `find?` through a map whose function fixes non-matching elements and
keeps matching elements matching finds the image of the original hit. -/
theorem find?_map_update {α : Type} (pr : α → Bool) (g : α → α) :
    ∀ (l : List α) (x : α), l.find? pr = some x →
    (∀ a, pr a = false → g a = a) →
    (∀ a, pr a = true → pr (g a) = true) →
    (l.map g).find? pr = some (g x) := by
  intro l
  induction l with
  | nil => intro x h _ _; simp [List.find?] at h
  | cons a tl ih =>
    intro x h hfix hpres
    by_cases ha : pr a = true
    · rw [List.find?_cons_of_pos _ ha, Option.some.injEq] at h
      subst h
      simp only [List.map_cons]
      rw [List.find?_cons_of_pos _ (hpres a ha)]
    · have ha' : pr a = false := by revert ha; cases pr a <;> simp
      rw [List.find?_cons_of_neg _ (by simp [ha'])] at h
      simp only [List.map_cons]
      rw [hfix a ha', List.find?_cons_of_neg _ (by simp [ha'])]
      exact ih x h hfix hpres

/-- `find?` through a map that preserves the predicate's value and fixes
the original hit still returns that hit. -/
theorem find?_map_fix {α : Type} (pr : α → Bool) (g : α → α) :
    ∀ (l : List α) (x : α), l.find? pr = some x →
    (∀ a, pr (g a) = pr a) → g x = x →
    (l.map g).find? pr = some x := by
  intro l
  induction l with
  | nil => intro x h _ _; simp [List.find?] at h
  | cons a tl ih =>
    intro x h hpr hx
    by_cases ha : pr a = true
    · rw [List.find?_cons_of_pos _ ha, Option.some.injEq] at h
      subst h
      simp only [List.map_cons]
      rw [hx, List.find?_cons_of_pos _ ha]
    · have ha' : pr a = false := by revert ha; cases pr a <;> simp
      rw [List.find?_cons_of_neg _ (by simp [ha'])] at h
      simp only [List.map_cons]
      rw [List.find?_cons_of_neg _ (by simp [hpr a, ha'])]
      exact ih x h hpr hx

/-- `Map.set` leaves the inserted element in the map. -/
theorem mem_setVote (l : List Vote) (v : Vote) : v ∈ setVote l v := by
  unfold setVote
  split
  next h =>
    rcases List.any_eq_true.mp h with ⟨a, ha, hab⟩
    exact List.mem_map.mpr ⟨a, ha, by simp [hab]⟩
  next => exact List.mem_append_right _ (by simp)

/-- The upsert stores a vote carrying exactly the submitted
(participant, story, value) triple. -/
theorem createOrUpdateVote_stores (s : Storage) (pid : String) (usid : Nat) (value : Int) :
    ∃ v ∈ (s.createOrUpdateVote pid usid value).votes,
      v.participantId = pid ∧ v.userStoryId = usid ∧ v.value = value := by
  unfold Storage.createOrUpdateVote
  cases hex : s.getVote pid usid with
  | some ex =>
    have hpr := List.find?_some hex
    simp only [Bool.and_eq_true, beq_iff_eq] at hpr
    exact ⟨{ ex with value := value }, mem_setVote _ _, hpr.1, hpr.2, rfl⟩
  | none =>
    exact ⟨_, mem_setVote _ _, rfl, rfl, rfl⟩

/-- In the authorized, story-active case, `handleVote` upserts the vote
and emits the confirmation, the `participant_voted` broadcast, and the
conditional `all_voted` broadcast. -/
theorem handleVote_success_shape (store : Storage) (c : WSClient) (sessionId : String)
    (userStoryId : Nat) (value : Int) (pid : String) (st : UserStory)
    (hpid : c.participantId = some pid) (hsid : c.sessionId = some sessionId)
    (hst : store.getUserStory userStoryId = some st)
    (hsess : st.sessionId = sessionId) (hact : st.isActive = true)
    (hcomp : st.isCompleted = false) :
    handleVote store c sessionId userStoryId value =
      (store.createOrUpdateVote pid userStoryId value,
        [.reply (.voteRecorded userStoryId value),
         .broadcast sessionId (.participantVoted pid userStoryId)] ++
        (if voteAllVoted (store.createOrUpdateVote pid userStoryId value) sessionId userStoryId ∧
            (voteActiveParticipants (store.createOrUpdateVote pid userStoryId value)
              sessionId).length > 0 then
          [.broadcast sessionId
            (.allVoted userStoryId
              (voteNotif (store.createOrUpdateVote pid userStoryId value) sessionId))]
        else [])) := by
  simp only [handleVote, hpid, hst]
  rw [if_neg (by rw [hsid]; simp)]
  rw [if_neg (by simp [hsess, hact, hcomp])]

/-- C5: a vote command referencing an existing story that is not active
(or already completed) leaves the store unchanged and produces exactly
one error reply to the sender — in particular no vote record and no
broadcast — whatever the sender's registration state. -/
theorem handleVote_rejects_inactive (store : Storage) (c : WSClient) (sessionId : String)
    (userStoryId : Nat) (value : Int) (st : UserStory)
    (hst : store.getUserStory userStoryId = some st)
    (hina : st.isActive = false ∨ st.isCompleted = true) :
    (handleVote store c sessionId userStoryId value).1 = store ∧
    ((handleVote store c sessionId userStoryId value).2 =
        [.reply (.error "Not authorized to vote in this session")] ∨
      (handleVote store c sessionId userStoryId value).2 =
        [.reply (.error "Cannot vote on this story")]) := by
  cases hpid : c.participantId with
  | none =>
    simp only [handleVote, hpid]
    simp
  | some pid =>
    by_cases hsid : c.sessionId ≠ some sessionId
    · simp only [handleVote, hpid, hst]
      rw [if_pos hsid]
      simp
    · simp only [handleVote, hpid, hst]
      rw [if_neg hsid, if_pos (Or.inr hina)]
      simp

/-- Witness for C5: voting on the already-completed story 1 of the
`cmdsNextOnce` state is rejected without mutation or broadcast. -/
theorem handleVote_rejects_inactive_witness :
    (handleVote (runCmds SysState.init cmdsNextOnce).store
        { sessionId := some "s1", participantId := some "p1", isHost := false }
        "s1" 1 5).1 = (runCmds SysState.init cmdsNextOnce).store ∧
    ((handleVote (runCmds SysState.init cmdsNextOnce).store
        { sessionId := some "s1", participantId := some "p1", isHost := false }
        "s1" 1 5).2 =
        [.reply (.error "Not authorized to vote in this session")] ∨
      (handleVote (runCmds SysState.init cmdsNextOnce).store
        { sessionId := some "s1", participantId := some "p1", isHost := false }
        "s1" 1 5).2 =
        [.reply (.error "Cannot vote on this story")]) :=
  handleVote_rejects_inactive _ _ _ _ _
    { id := 1, sessionId := "s1", title := "A", description := none,
      finalEstimate := some 5, order := 0, isActive := false, isCompleted := true }
    (by decide) (Or.inl rfl)

/-- C6 counterexample: with the session's scale being the Fibonacci
scale, a vote of value 7 — not a scale element — is accepted and stored
verbatim, so a stored vote value need not belong to the owning session's
scale. -/
theorem vote_value_not_in_scale_counterexample :
    (runCmds SysState.init (cmdsBase ++ [.wsVote 0 "s1" 1 7])).store.votes =
      [{ id := 1, participantId := "p1", userStoryId := 1, value := 7 }] ∧
    ((runCmds SysState.init (cmdsBase ++ [.wsVote 0 "s1" 1 7])).store.getSession "s1").map
      (fun s => s.scale) = some generateFibonacciScale ∧
    (7 : Int) ∉ generateFibonacciScale :=
  ⟨by decide, by decide, by decide⟩

/-- C6 (amended): `handleVote` performs no scale-membership validation:
whenever the sender is registered for the session and the story is
active and incomplete in that session, a vote with any integer value
whatsoever is accepted and stored with exactly the submitted value. -/
theorem handleVote_accepts_any_value (store : Storage) (c : WSClient) (sessionId : String)
    (userStoryId : Nat) (value : Int) (pid : String) (st : UserStory)
    (hpid : c.participantId = some pid) (hsid : c.sessionId = some sessionId)
    (hst : store.getUserStory userStoryId = some st)
    (hsess : st.sessionId = sessionId) (hact : st.isActive = true)
    (hcomp : st.isCompleted = false) :
    ∃ v ∈ (handleVote store c sessionId userStoryId value).1.votes,
      v.participantId = pid ∧ v.userStoryId = userStoryId ∧ v.value = value := by
  rw [handleVote_success_shape store c sessionId userStoryId value pid st hpid hsid hst
    hsess hact hcomp]
  exact createOrUpdateVote_stores store pid userStoryId value

/-- Witness for C6 (amended): the registered participant of `cmdsBase`
submits the out-of-scale value 7 and it is stored. -/
theorem handleVote_accepts_any_value_witness :
    ∃ v ∈ (handleVote (runCmds SysState.init cmdsBase).store
        { sessionId := some "s1", participantId := some "p1", isHost := false }
        "s1" 1 7).1.votes,
      v.participantId = "p1" ∧ v.userStoryId = 1 ∧ v.value = 7 :=
  handleVote_accepts_any_value _ _ _ _ _ "p1"
    { id := 1, sessionId := "s1", title := "A", description := none,
      finalEstimate := none, order := 0, isActive := true, isCompleted := false }
    rfl rfl (by decide) rfl rfl rfl

/-- C8 counterexample: the session's notification flag is off, yet once
every connected participant has voted the `all_voted` message is still
broadcast (the flag is only carried in the payload). -/
theorem allVoted_broadcast_counterexample :
    ((runCmds SysState.init cmdsBase).store.getSession "s1").map
      (fun s => s.notificationsEnabled) = some false ∧
    Out.broadcast "s1" (ServerMsg.allVoted 1 false) ∈
      (stepCmd (runCmds SysState.init cmdsBase) (.wsVote 0 "s1" 1 5)).2 :=
  ⟨by decide, by decide⟩

/-- C8 (amended): after a successful vote upsert the `all_voted` message
is broadcast if and only if every currently-connected participant of the
session has a recorded vote for the story and at least one participant
is connected; the session's notification flag is only carried in the
message payload and never gates the broadcast. -/
theorem handleVote_allVoted_iff (store : Storage) (c : WSClient) (sessionId : String)
    (userStoryId : Nat) (value : Int) (pid : String) (st : UserStory)
    (hpid : c.participantId = some pid) (hsid : c.sessionId = some sessionId)
    (hst : store.getUserStory userStoryId = some st)
    (hsess : st.sessionId = sessionId) (hact : st.isActive = true)
    (hcomp : st.isCompleted = false) :
    (Out.broadcast sessionId (ServerMsg.allVoted userStoryId
        (voteNotif (store.createOrUpdateVote pid userStoryId value) sessionId)) ∈
      (handleVote store c sessionId userStoryId value).2) ↔
    (voteActiveParticipants (store.createOrUpdateVote pid userStoryId value) sessionId ≠ [] ∧
      ∀ p ∈ voteActiveParticipants (store.createOrUpdateVote pid userStoryId value) sessionId,
        ∃ v ∈ (store.createOrUpdateVote pid userStoryId value).getVotesByUserStory userStoryId,
          v.participantId = p.id) := by
  rw [handleVote_success_shape store c sessionId userStoryId value pid st hpid hsid hst
    hsess hact hcomp]
  have hiff : (voteAllVoted (store.createOrUpdateVote pid userStoryId value) sessionId
        userStoryId = true ∧
      (voteActiveParticipants (store.createOrUpdateVote pid userStoryId value)
        sessionId).length > 0) ↔
      (voteActiveParticipants (store.createOrUpdateVote pid userStoryId value) sessionId ≠ [] ∧
      ∀ p ∈ voteActiveParticipants (store.createOrUpdateVote pid userStoryId value) sessionId,
        ∃ v ∈ (store.createOrUpdateVote pid userStoryId value).getVotesByUserStory userStoryId,
          v.participantId = p.id) := by
    rw [voteAllVoted, and_comm]
    simp only [List.all_eq_true, List.any_eq_true, beq_iff_eq, List.length_pos, gt_iff_lt]
  constructor
  · intro hmem
    rcases List.mem_append.mp hmem with h | h
    · simp at h
    · by_cases hcond : (voteAllVoted (store.createOrUpdateVote pid userStoryId value) sessionId
          userStoryId = true ∧
        (voteActiveParticipants (store.createOrUpdateVote pid userStoryId value)
          sessionId).length > 0)
      · exact hiff.mp hcond
      · rw [if_neg hcond] at h
        simp at h
  · intro hr
    refine List.mem_append.mpr (Or.inr ?_)
    rw [if_pos (hiff.mpr hr)]
    simp

/-- Witness for C8 (amended) at the `cmdsBase` state: the single
connected participant votes, so both sides of the equivalence hold. -/
theorem handleVote_allVoted_iff_witness :
    (Out.broadcast "s1" (ServerMsg.allVoted 1
        (voteNotif ((runCmds SysState.init cmdsBase).store.createOrUpdateVote "p1" 1 5) "s1")) ∈
      (handleVote (runCmds SysState.init cmdsBase).store
        { sessionId := some "s1", participantId := some "p1", isHost := false } "s1" 1 5).2) ↔
    (voteActiveParticipants
        ((runCmds SysState.init cmdsBase).store.createOrUpdateVote "p1" 1 5) "s1" ≠ [] ∧
      ∀ p ∈ voteActiveParticipants
          ((runCmds SysState.init cmdsBase).store.createOrUpdateVote "p1" 1 5) "s1",
        ∃ v ∈ Storage.getVotesByUserStory
            ((runCmds SysState.init cmdsBase).store.createOrUpdateVote "p1" 1 5) 1,
          v.participantId = p.id) :=
  handleVote_allVoted_iff _ _ _ _ _ "p1"
    { id := 1, sessionId := "s1", title := "A", description := none,
      finalEstimate := none, order := 0, isActive := true, isCompleted := false }
    rfl rfl (by decide) rfl rfl rfl

/-- A map whose function preserves a key leaves the key list unchanged. -/
theorem map_key_of_preserve {α β : Type} (key : α → β) (g : α → α)
    (hg : ∀ a, key (g a) = key a) : ∀ (l : List α), (l.map g).map key = l.map key := by
  intro l
  induction l with
  | nil => rfl
  | cons a tl ih => simp [hg, ih]

/-- C9: joining over REST with an alias that matches an existing
participant case-insensitively is rejected (without mutation) while that
participant is connected; if it is disconnected, the same participant id
is reattached with liveness flipped true and no record is added or
removed; with an unused alias a fresh participant record is created. -/
theorem joinRest_spec (store : Storage) (sid alias_ newPid : String) (s : Session)
    (hs : store.getSession sid = some s) :
    (∀ p, store.getParticipantByAlias sid alias_ = some p → p.isConnected = true →
      joinRest store sid alias_ newPid = (store, .aliasInUse)) ∧
    (∀ p, store.getParticipantByAlias sid alias_ = some p → p.isConnected = false →
      (joinRest store sid alias_ newPid).1.participants =
        store.participants.map
          (fun q => if q.id == p.id then { q with isConnected := true } else q) ∧
      (joinRest store sid alias_ newPid).1.participants.map (fun q => q.id) =
        store.participants.map (fun q => q.id) ∧
      ∃ u, (joinRest store sid alias_ newPid).2 = .rejoined (some u) ∧
        u.id = p.id ∧ u.isConnected = true) ∧
    (store.getParticipantByAlias sid alias_ = none →
      joinRest store sid alias_ newPid =
        ({ store with
            participants := setParticipant store.participants ⟨newPid, sid, alias_, true⟩ },
          .created ⟨newPid, sid, alias_, true⟩)) := by
  refine ⟨?_, ?_, ?_⟩
  · intro p hp hconn
    simp only [joinRest, hs, hp, hconn]
    rfl
  · intro p hp hconn
    have hmem : p ∈ store.participants := List.mem_of_find?_eq_some hp
    have hq : ∃ q, store.participants.find? (fun q => q.id == p.id) = some q := by
      have : (store.participants.find? (fun q => q.id == p.id)).isSome :=
        List.find?_isSome.mpr ⟨p, hmem, by simp⟩
      exact Option.isSome_iff_exists.mp this
    rcases hq with ⟨q, hq⟩
    have hqid : q.id = p.id := by
      have := List.find?_some hq
      simpa using this
    have hupd : ((store.updateParticipantWith p.id
        (fun r => { r with isConnected := true })).getParticipant p.id) =
        some { q with isConnected := true } := by
      unfold Storage.updateParticipantWith Storage.getParticipant
      have := find?_map_update (fun r : Participant => r.id == p.id)
        (fun r => if r.id == p.id then { r with isConnected := true } else r)
        store.participants q hq
        (fun a ha => by simp [ha])
        (fun a ha => by simp at ha; simp [ha])
      simp only [beq_iff_eq] at this ⊢
      rw [this]
      simp [hqid]
    refine ⟨?_, ?_, ?_⟩
    · simp only [joinRest, hs, hp, hconn]
      rfl
    · simp only [joinRest, hs, hp, hconn]
      exact map_key_of_preserve (fun r : Participant => r.id) _
        (fun a => by by_cases h : (a.id == p.id) = true <;> simp [h]) store.participants
    · refine ⟨{ q with isConnected := true }, ?_, by simp [hqid], rfl⟩
      simp only [joinRest, hs, hp, hconn]
      rw [hupd]
      simp
  · intro hp
    simp only [joinRest, hs, hp]

/-- Witness for C9: in `fixStoreJoin` the alias `Alice` is stored
disconnected; joining as `ALICE` reattaches `p1` (case-insensitive
match), flips liveness, and adds no record. -/
theorem joinRest_spec_witness :
    (joinRest fixStoreJoin "s1" "ALICE" "p2").1.participants.map (fun q => q.id) =
      fixStoreJoin.participants.map (fun q => q.id) ∧
    ∃ u, (joinRest fixStoreJoin "s1" "ALICE" "p2").2 = .rejoined (some u) ∧
      u.id = "p1" ∧ u.isConnected = true := by
  have h := (joinRest_spec fixStoreJoin "s1" "ALICE" "p2" fixSession (by decide)).2.1
    fixParticipantD (by decide) (by decide)
  exact ⟨h.2.1, by
    rcases h.2.2 with ⟨u, hu, hid, hconn⟩
    exact ⟨u, hu, by rw [hid]; rfl, hconn⟩⟩

/-- C10 counterexample: a `join_session` naming the nonexistent
participant `ghost` in an existing session leaves the connection
registered under `("s1", "ghost")`, and the subsequent vote is accepted,
creating a vote record whose participant does not exist. -/
theorem ghost_registration_counterexample :
    (runCmds SysState.init cmdsGhost).store.getParticipant "ghost" = none ∧
    getClient (runCmds SysState.init cmdsGhost).clients 0 =
      some { sessionId := some "s1", participantId := some "ghost", isHost := false } ∧
    (stepCmd (runCmds SysState.init cmdsGhost) (.wsVote 0 "s1" 1 5)).1.store.votes =
      [{ id := 1, participantId := "ghost", userStoryId := 1, value := 5 }] :=
  ⟨by decide, by decide, by decide⟩

/-- C10 (amended): `handleJoinSession` registers the connection's
`(sessionId, participantId)` pair before validating the participant, so
when the session exists but the participant id does not, the connection
stays registered (only an error is replied and the store is untouched),
and a subsequent vote from that connection for an active story of the
session is accepted, storing a vote for the nonexistent participant. -/
theorem handleJoinSession_registers_unvalidated (store : Storage) (c : WSClient)
    (sid pid : String) (s : Session)
    (hs : store.getSession sid = some s) (hp : store.getParticipant pid = none) :
    handleJoinSession store c sid pid =
      (store, { c with sessionId := some sid, participantId := some pid },
        [.reply (.error "Participant not found")]) ∧
    (∀ (storyId : Nat) (value : Int) (st : UserStory),
      store.getUserStory storyId = some st → st.sessionId = sid → st.isActive = true →
      st.isCompleted = false →
      ∃ v ∈ (handleVote store
          { c with sessionId := some sid, participantId := some pid } sid storyId value).1.votes,
        v.participantId = pid ∧ v.userStoryId = storyId ∧ v.value = value) := by
  constructor
  · simp only [handleJoinSession, hs, hp]
  · intro storyId value st hst hsess hact hcomp
    rw [handleVote_success_shape store
      { c with sessionId := some sid, participantId := some pid } sid storyId value pid st
      rfl rfl hst hsess hact hcomp]
    exact createOrUpdateVote_stores store pid storyId value

/-- Witness for C10 (amended): the concrete `cmdsGhost` prefix before the
ghost join; the session exists, `ghost` does not, story 1 is active. -/
theorem handleJoinSession_registers_unvalidated_witness :
    handleJoinSession (runCmds SysState.init (cmdsGhost.take 2)).store WSClient.fresh "s1" "ghost" =
      ((runCmds SysState.init (cmdsGhost.take 2)).store,
        { WSClient.fresh with sessionId := some "s1", participantId := some "ghost" },
        [.reply (.error "Participant not found")]) ∧
    ∃ v ∈ (handleVote (runCmds SysState.init (cmdsGhost.take 2)).store
        { WSClient.fresh with sessionId := some "s1", participantId := some "ghost" }
        "s1" 1 5).1.votes,
      v.participantId = "ghost" ∧ v.userStoryId = 1 ∧ v.value = 5 := by
  have h := handleJoinSession_registers_unvalidated
    (runCmds SysState.init (cmdsGhost.take 2)).store WSClient.fresh "s1" "ghost"
    { id := "s1", name := "sess", hostId := 1, scale := generateFibonacciScale
      notificationsEnabled := false }
    (by decide) (by decide)
  exact ⟨h.1, h.2 1 5
    { id := 1, sessionId := "s1", title := "A", description := none,
      finalEstimate := none, order := 0, isActive := true, isCompleted := false }
    (by decide) rfl rfl rfl⟩

/-! ### Story-list lemmas -/

theorem mem_insertByOrder {y x : UserStory} :
    ∀ {l : List UserStory}, y ∈ insertByOrder x l ↔ y = x ∨ y ∈ l := by
  intro l
  induction l with
  | nil => simp [insertByOrder]
  | cons a tl ih =>
    by_cases h : x.order ≤ a.order
    · simp [insertByOrder, h]
    · simp only [insertByOrder, if_neg h, List.mem_cons, ih]
      tauto

theorem mem_sortByOrder {y : UserStory} :
    ∀ {l : List UserStory}, y ∈ sortByOrder l ↔ y ∈ l := by
  intro l
  induction l with
  | nil => simp [sortByOrder]
  | cons a tl ih => simp [sortByOrder, mem_insertByOrder, ih]

theorem mem_storiesAfter {y : UserStory} (all : List UserStory) (storyId : Nat) :
    y ∈ storiesAfter all storyId → y ∈ all := by
  unfold storiesAfter
  cases all.findIdx? (fun s => s.id == storyId) with
  | some i => exact fun h => List.mem_of_mem_drop h
  | none => exact id

theorem mem_getUserStories {y : UserStory} (s : Storage) (sid : String) :
    y ∈ s.getUserStories sid ↔ y ∈ s.userStories ∧ y.sessionId = sid := by
  unfold Storage.getUserStories
  rw [mem_sortByOrder, List.mem_filter]
  simp

/-- Updating a story record without touching its id keeps the id list,
hence its `Nodup`ness. -/
theorem map_story_id_of_preserve (g : UserStory → UserStory)
    (hg : ∀ a, (g a).id = a.id) (l : List UserStory) :
    (l.map g).map (fun q => q.id) = l.map (fun q => q.id) :=
  map_key_of_preserve (fun q : UserStory => q.id) g hg l

/-- `updateStoryWith` on the looked-up id rewrites exactly the found
record (the update must preserve the id). -/
theorem getUserStory_updateStoryWith_hit (s : Storage) (cid : Nat) (f : UserStory → UserStory)
    (st : UserStory) (hfind : s.getUserStory cid = some st)
    (hid : ∀ a, (f a).id = a.id) :
    (s.updateStoryWith cid f).getUserStory cid = some (f st) := by
  unfold Storage.updateStoryWith Storage.getUserStory
  have hpr : (st.id == cid) = true := by
    have := List.find?_some hfind
    simpa using this
  have := find?_map_update (fun q : UserStory => q.id == cid)
    (fun q => if q.id == cid then f q else q) s.userStories st hfind
    (fun a ha => by simp [ha])
    (fun a ha => by simp at ha; simp [ha, hid])
  rw [this]
  simp [hpr]

/-- `updateStoryWith` on a different id — or an update that fixes the
found record — leaves the lookup unchanged. -/
theorem getUserStory_updateStoryWith_fix (s : Storage) (uid cid : Nat)
    (f : UserStory → UserStory) (st : UserStory)
    (hfind : s.getUserStory cid = some st)
    (hid : ∀ a, (f a).id = a.id)
    (hfix : (if (st.id == uid) = true then f st else st) = st) :
    (s.updateStoryWith uid f).getUserStory cid = some st := by
  unfold Storage.updateStoryWith Storage.getUserStory
  exact find?_map_fix (fun q : UserStory => q.id == cid)
    (fun q => if q.id == uid then f q else q) s.userStories st hfind
    (fun a => by by_cases h : (a.id == uid) = true <;> simp [h, hid])
    (by simpa using hfix)

/-- A record already inactive is unchanged by the deactivating update. -/
theorem story_set_inactive_self (a : UserStory) (h : a.isActive = false) :
    ({ a with isActive := false } : UserStory) = a := by
  cases a
  simp_all

/-- The completed record written by `markUserStoryCompleted` survives the
subsequent `setActiveUserStory` of a different story. -/
theorem getUserStory_setActive_keeps_completed (s : Storage) (sid : String) (tid cid : Nat)
    (stC : UserStory) (hfind : s.getUserStory cid = some stC)
    (hinact : stC.isActive = false) (hne : (stC.id == tid) = false) :
    (s.setActiveUserStory sid tid).getUserStory cid = some stC := by
  unfold Storage.setActiveUserStory
  have hact : ∀ (s' : Storage), s'.getUserStory cid = some stC →
      (s'.updateStoryWith tid (fun q => { q with isActive := true })).getUserStory cid =
        some stC := by
    intro s' h'
    exact getUserStory_updateStoryWith_fix s' tid cid _ stC h'
      (fun a => rfl) (by simp [hne])
  cases hcur : s.getActiveUserStory sid with
  | none => exact hact s hfind
  | some cur =>
    dsimp only
    by_cases hcid : cur.id ≠ tid
    · rw [if_pos hcid]
      refine hact _ ?_
      refine getUserStory_updateStoryWith_fix s cur.id cid _ stC hfind (fun a => rfl) ?_
      by_cases h : (stC.id == cur.id) = true
      · simp only [h, if_true]
        exact story_set_inactive_self stC hinact
      · simp [h]
    · rw [if_neg hcid]
      exact hact s hfind

/-- C4 counterexample: after `cmdsNextOnce`, story 1 is completed (not
active) with estimate 5; a further `next_story` naming story 1 is not
rejected — it overwrites the estimate with 8 and broadcasts a
`next_story_activated`, so state mutates and no error is replied. -/
theorem nextStory_completed_story_counterexample :
    ((runCmds SysState.init cmdsNextOnce).store.getUserStory 1).map
      (fun st => (st.isActive, st.isCompleted, st.finalEstimate)) =
      some (false, true, some 5) ∧
    ((stepCmd (runCmds SysState.init cmdsNextOnce)
        (.wsNext 0 "s1" 1 (some 8))).1.store.getUserStory 1).map
      (fun st => st.finalEstimate) = some (some 8) ∧
    (stepCmd (runCmds SysState.init cmdsNextOnce) (.wsNext 0 "s1" 1 (some 8))).2 =
      [.broadcast "s1" (.nextStoryActivated 1 2 (some 8))] :=
  ⟨by decide, by decide, by decide⟩

/-- C4 (amended): `handleNextStory` validates only that the caller is the
session's registered host; it performs no story-state check — whatever
existing story the command names (already completed, inactive, or of
another session) is (re)marked completed with the client-supplied
estimate, and only broadcasts (never an error reply) are emitted. -/
theorem handleNextStory_no_validation (store : Storage) (c : WSClient) (sessionId : String)
    (currentStoryId : Nat) (fe : Option Int) (st : UserStory)
    (hhost : c.isHost = true) (hsid : c.sessionId = some sessionId)
    (hnodup : (store.userStories.map (fun q => q.id)).Nodup)
    (hst : store.getUserStory currentStoryId = some st) :
    (handleNextStory store c sessionId currentStoryId fe).1.getUserStory currentStoryId =
      some { st with isActive := false, isCompleted := true, finalEstimate := fe } ∧
    (∀ o ∈ (handleNextStory store c sessionId currentStoryId fe).2,
      ∃ m, o = Out.broadcast sessionId m) ∧
    (handleNextStory store c sessionId currentStoryId fe).2 ≠ [] := by
  have hcompleted : (store.markUserStoryCompleted currentStoryId fe).getUserStory
      currentStoryId =
      some { st with isActive := false, isCompleted := true, finalEstimate := fe } := by
    unfold Storage.markUserStoryCompleted
    exact getUserStory_updateStoryWith_hit store currentStoryId _ st hst (fun a => rfl)
  have hpr : (st.id == currentStoryId) = true := by
    have := List.find?_some hst
    simpa using this
  have hstid : st.id = currentStoryId := by simpa using hpr
  simp only [handleNextStory, hhost, hsid]
  rw [if_neg (by simp)]
  cases hnexts : (storiesAfter (Storage.getUserStories
      (store.markUserStoryCompleted currentStoryId fe) sessionId) currentStoryId).filter
      (fun s => !s.isCompleted) with
  | nil =>
    refine ⟨hcompleted, ?_, by simp⟩
    intro o ho
    simp only [List.mem_singleton] at ho
    exact ⟨_, ho⟩
  | cons n rest =>
    have hnmem : n ∈ (store.markUserStoryCompleted currentStoryId fe).userStories ∧
        n.isCompleted = false := by
      have h1 : n ∈ (storiesAfter (Storage.getUserStories
          (store.markUserStoryCompleted currentStoryId fe) sessionId) currentStoryId).filter
          (fun s => !s.isCompleted) := by
        rw [hnexts]; exact List.mem_cons_self n rest
      rw [List.mem_filter] at h1
      have h2 := mem_storiesAfter _ _ h1.1
      rw [mem_getUserStories] at h2
      exact ⟨h2.1, by simpa using h1.2⟩
    have hCmem : { st with isActive := false, isCompleted := true, finalEstimate := fe } ∈
        (store.markUserStoryCompleted currentStoryId fe).userStories :=
      List.mem_of_find?_eq_some hcompleted
    have hnodup1 : ((store.markUserStoryCompleted currentStoryId fe).userStories.map
        (fun q => q.id)).Nodup := by
      unfold Storage.markUserStoryCompleted Storage.updateStoryWith
      rw [map_story_id_of_preserve _
        (fun a => by by_cases h : (a.id == currentStoryId) = true <;> simp [h])]
      exact hnodup
    have hne : (({ st with isActive := false, isCompleted := true, finalEstimate := fe } : UserStory).id == n.id) = false := by
      cases hb : (({ st with isActive := false, isCompleted := true, finalEstimate := fe } : UserStory).id == n.id) with
      | false => rfl
      | true =>
        exfalso
        have heq : ({ st with isActive := false, isCompleted := true, finalEstimate := fe } : UserStory).id = n.id := by simpa using hb
        have hEq := List.inj_on_of_nodup_map hnodup1 hCmem hnmem.1 heq
        have hcompn : n.isCompleted = true := by rw [← hEq]
        rw [hnmem.2] at hcompn
        exact Bool.false_ne_true hcompn
    refine ⟨?_, ?_, by simp⟩
    · exact getUserStory_setActive_keeps_completed
        (store.markUserStoryCompleted currentStoryId fe) sessionId n.id currentStoryId
        _ hcompleted rfl hne
    · intro o ho
      simp only [List.mem_singleton] at ho
      exact ⟨_, ho⟩

/-- Witness for C4 (amended): after `cmdsNextOnce`, the host re-issues
`next_story` for the already-completed story 1 with estimate 8. -/
theorem handleNextStory_no_validation_witness :
    (handleNextStory (runCmds SysState.init cmdsNextOnce).store
        { sessionId := some "s1", participantId := none, isHost := true }
        "s1" 1 (some 8)).1.getUserStory 1 =
      some ⟨1, "s1", "A", none, some 8, 0, false, true⟩ ∧
    (∀ o ∈ (handleNextStory (runCmds SysState.init cmdsNextOnce).store
        { sessionId := some "s1", participantId := none, isHost := true }
        "s1" 1 (some 8)).2, ∃ m, o = Out.broadcast "s1" m) ∧
    (handleNextStory (runCmds SysState.init cmdsNextOnce).store
        { sessionId := some "s1", participantId := none, isHost := true }
        "s1" 1 (some 8)).2 ≠ [] :=
  handleNextStory_no_validation _ _ _ _ _
    { id := 1, sessionId := "s1", title := "A", description := none,
      finalEstimate := some 5, order := 0, isActive := false, isCompleted := true }
    rfl rfl (by decide) (by decide)

/-! ### Active-story counting lemmas -/

/-- A record already active is unchanged by the activating update. -/
theorem story_set_active_self (a : UserStory) (h : a.isActive = true) :
    ({ a with isActive := true } : UserStory) = a := by
  cases a
  simp_all

theorem countActive_map_le (g : UserStory → UserStory) (l : List UserStory) (sid : String)
    (hg : ∀ a ∈ l, ((g a).sessionId == sid && (g a).isActive) = true →
      (a.sessionId == sid && a.isActive) = true) :
    countActive (l.map g) sid ≤ countActive l sid := by
  unfold countActive
  rw [List.countP_map]
  exact List.countP_mono_left (by intro a ha h; exact hg a ha h)

theorem countActive_eq_zero_of_find?_none (l : List UserStory) (sid : String)
    (h : l.find? (fun st => st.sessionId == sid && st.isActive) = none) :
    countActive l sid = 0 := by
  unfold countActive
  rw [List.countP_eq_zero]
  intro a ha
  have := List.find?_eq_none.mp h a ha
  simpa using this

/-- Deactivating the story found by `getActiveUserStory` empties the
session's active set (when it had at most one active story). -/
theorem countActive_deact_found (sid : String) (c : UserStory) :
    ∀ (l : List UserStory),
    l.find? (fun st => st.sessionId == sid && st.isActive) = some c →
    countActive l sid ≤ 1 →
    countActive (l.map (fun q => if q.id == c.id then { q with isActive := false } else q))
      sid = 0 := by
  intro l
  induction l with
  | nil => intro hfind _; simp [List.find?] at hfind
  | cons a tl ih =>
    intro hfind hle
    by_cases ha : (a.sessionId == sid && a.isActive) = true
    · simp only [List.find?, ha, Option.some.injEq] at hfind
      subst hfind
      have htl : countActive tl sid = 0 := by
        unfold countActive at hle ⊢
        rw [List.countP_cons] at hle
        simp only [ha, if_true] at hle
        omega
      have hmap_le : countActive
          (tl.map (fun q => if q.id == a.id then { q with isActive := false } else q)) sid ≤
          countActive tl sid := by
        apply countActive_map_le
        intro b _ hb
        by_cases h : (b.id == a.id) = true
        · simp [h] at hb
        · have h' : (b.id == a.id) = false := by revert h; cases b.id == a.id <;> simp
          rw [h'] at hb
          simpa using hb
      unfold countActive at hmap_le htl ⊢
      simp only [List.map_cons, List.countP_cons]
      have hhead : ((if a.id == a.id then { a with isActive := false } else a).sessionId == sid &&
          (if a.id == a.id then { a with isActive := false } else a).isActive) = false := by
        simp
      rw [hhead]
      simp only [if_false, Bool.false_eq_true]
      omega
    · have ha' : (a.sessionId == sid && a.isActive) = false := by
        revert ha; cases a.sessionId == sid && a.isActive <;> simp
      simp only [List.find?, ha'] at hfind
      have hle' : countActive tl sid ≤ 1 := by
        unfold countActive at hle ⊢
        rw [List.countP_cons] at hle
        omega
      have htl := ih hfind hle'
      have hhead : ((if a.id == c.id then { a with isActive := false } else a).sessionId == sid &&
          (if a.id == c.id then { a with isActive := false } else a).isActive) = false := by
        by_cases h : (a.id == c.id) = true
        · simp [h]
        · have h' : (a.id == c.id) = false := by revert h; cases a.id == c.id <;> simp
          rw [h']
          simp only [if_false, Bool.false_eq_true]
          exact ha'
      unfold countActive at htl ⊢
      simp only [List.map_cons, List.countP_cons]
      rw [hhead]
      simp only [if_false, Bool.false_eq_true]
      omega

/-- Activating one id adds at most the number of records carrying it. -/
theorem countActive_act_le (sid : String) (tid : Nat) : ∀ (l : List UserStory),
    countActive (l.map (fun q => if q.id == tid then { q with isActive := true } else q)) sid ≤
      countActive l sid + l.countP (fun q => q.id == tid) := by
  intro l
  induction l with
  | nil => simp [countActive]
  | cons a tl ih =>
    unfold countActive at ih ⊢
    simp only [List.map_cons, List.countP_cons]
    have hhead : (if ((if a.id == tid then { a with isActive := true } else a).sessionId == sid &&
        (if a.id == tid then { a with isActive := true } else a).isActive) = true then 1 else 0) ≤
        (if (a.sessionId == sid && a.isActive) = true then 1 else 0) +
        (if (a.id == tid) = true then 1 else 0) := by
      by_cases h : (a.id == tid) = true
      · simp only [h, if_true]
        split <;> omega
      · have h' : (a.id == tid) = false := by revert h; cases a.id == tid <;> simp
        rw [h']
        simp only [if_false, Bool.false_eq_true]
        omega
    omega

/-- With unique ids, at most one record carries a given id. -/
theorem countP_id_le_one (l : List UserStory)
    (hnodup : (l.map (fun q => q.id)).Nodup) (tid : Nat) :
    l.countP (fun q => q.id == tid) ≤ 1 := by
  have h1 : l.countP (fun q => q.id == tid) = (l.map (fun q => q.id)).count tid := by
    rw [List.count_eq_countP, List.countP_map]
    rfl
  rw [h1]
  exact List.nodup_iff_count_le_one.mp hnodup tid

/-- Activating a story of session `sid` does not change other sessions'
active counts. -/
theorem countActive_act_other (sid s' : String) (tid : Nat)
    (hne : s' ≠ sid) : ∀ (l : List UserStory),
    (∀ q ∈ l, q.id = tid → q.sessionId = sid) →
    countActive (l.map (fun q => if q.id == tid then { q with isActive := true } else q)) s' =
      countActive l s' := by
  intro l
  induction l with
  | nil => intro _; rfl
  | cons a tl ih =>
    intro htarget
    have htl := ih (fun q hq => htarget q (List.mem_cons_of_mem a hq))
    have hhead : ((if a.id == tid then { a with isActive := true } else a).sessionId == s' &&
        (if a.id == tid then { a with isActive := true } else a).isActive) =
        (a.sessionId == s' && a.isActive) := by
      by_cases h : (a.id == tid) = true
      · have hsess : a.sessionId = sid :=
          htarget a (List.mem_cons_self a tl) (by simpa using h)
        have hext : (a.sessionId == s') = false := by
          rw [hsess]
          simp [Ne.symm hne]
        simp [h, hext]
      · have h' : (a.id == tid) = false := by revert h; cases a.id == tid <;> simp
        rw [h']
        simp
    unfold countActive at htl ⊢
    simp only [List.map_cons, List.countP_cons]
    rw [hhead, htl]

/-! ### StateInv preservation -/

/-- `StateInv` only reads the story and session lists. -/
theorem StateInv_congr (s1 s2 : Storage)
    (hu : s2.userStories = s1.userStories) (hs : s2.sessions = s1.sessions)
    (h : StateInv s1) : StateInv s2 := by
  unfold StateInv at h ⊢
  rw [hu, hs]
  exact h

/-- An update that deactivates (or completes) a story — any `f` that
preserves id and session and writes `isActive := false` — preserves the
invariants. -/
theorem StateInv_update_deactivating (s : Storage) (cid : Nat) (f : UserStory → UserStory)
    (hid : ∀ a, (f a).id = a.id) (hsess : ∀ a, (f a).sessionId = a.sessionId)
    (hact : ∀ a, (f a).isActive = false) (hinv : StateInv s) :
    StateInv (s.updateStoryWith cid f) := by
  obtain ⟨hnodup, hcount, hcomp, hsessInv⟩ := hinv
  refine ⟨?_, ?_, ?_, ?_⟩
  · show (((s.userStories.map fun q => if q.id == cid then f q else q)).map
      (fun q => q.id)).Nodup
    rw [map_story_id_of_preserve _
      (fun a => by by_cases h : (a.id == cid) = true <;> simp [h, hid])]
    exact hnodup
  · intro sid'
    refine le_trans (countActive_map_le _ _ sid' ?_) (hcount sid')
    intro a _ hb
    by_cases h : (a.id == cid) = true
    · rw [h] at hb
      simp only [if_true] at hb
      rw [hact a] at hb
      simp at hb
    · have h' : (a.id == cid) = false := by revert h; cases a.id == cid <;> simp
      rw [h'] at hb
      simpa using hb
  · intro y hy hyc
    rcases List.mem_map.mp hy with ⟨q, hq, rfl⟩
    by_cases h : (q.id == cid) = true
    · simp only [h, if_true] at hyc ⊢
      exact hact q
    · have h' : (q.id == cid) = false := by revert h; cases q.id == cid <;> simp
      simp only [h', if_false, Bool.false_eq_true] at hyc ⊢
      exact hcomp q hq hyc
  · intro y hy
    rcases List.mem_map.mp hy with ⟨q, hq, rfl⟩
    have hys : (if (q.id == cid) = true then f q else q).sessionId = q.sessionId := by
      by_cases h : (q.id == cid) = true <;> simp [h, hsess]
    show ∃ sess ∈ s.sessions, sess.id = _
    rw [hys]
    exact hsessInv q hq

/-- Activating a story of a session with no currently active story
preserves the invariants, provided the target (if present) belongs to
that session and is not completed. -/
theorem StateInv_activate (s : Storage) (sid : String) (tid : Nat)
    (hinv : StateInv s)
    (htarget : ∀ q ∈ s.userStories, q.id = tid → q.sessionId = sid ∧ q.isCompleted = false)
    (hzero : countActive s.userStories sid = 0) :
    StateInv (s.updateStoryWith tid (fun q => { q with isActive := true })) := by
  obtain ⟨hnodup, hcount, hcomp, hsessInv⟩ := hinv
  refine ⟨?_, ?_, ?_, ?_⟩
  · show (((s.userStories.map fun q => if q.id == tid then
      { q with isActive := true } else q)).map (fun q => q.id)).Nodup
    rw [map_story_id_of_preserve _
      (fun a => by by_cases h : (a.id == tid) = true <;> simp [h])]
    exact hnodup
  · intro s'
    by_cases hs' : s' = sid
    · subst hs'
      refine le_trans (countActive_act_le s' tid s.userStories) ?_
      rw [hzero]
      simpa using countP_id_le_one s.userStories hnodup tid
    · show countActive (s.userStories.map fun q => if q.id == tid then
        { q with isActive := true } else q) s' ≤ 1
      rw [countActive_act_other sid s' tid hs' s.userStories
        (fun q hq hqid => (htarget q hq hqid).1)]
      exact hcount s'
  · intro y hy hyc
    rcases List.mem_map.mp hy with ⟨q, hq, rfl⟩
    by_cases h : (q.id == tid) = true
    · simp only [h, if_true] at hyc ⊢
      have := (htarget q hq (by simpa using h)).2
      rw [this] at hyc
      simp at hyc
    · have h' : (q.id == tid) = false := by revert h; cases q.id == tid <;> simp
      simp only [h', if_false, Bool.false_eq_true] at hyc ⊢
      exact hcomp q hq hyc
  · intro y hy
    rcases List.mem_map.mp hy with ⟨q, hq, rfl⟩
    have hys : (if (q.id == tid) = true then { q with isActive := true } else q).sessionId =
        q.sessionId := by
      by_cases h : (q.id == tid) = true <;> simp [h]
    show ∃ sess ∈ s.sessions, sess.id = _
    rw [hys]
    exact hsessInv q hq

/-- Target-session/not-completed hypotheses carry through updates that
preserve id, session and completion. -/
theorem htarget_map (s : Storage) (cid : Nat) (f : UserStory → UserStory) (tid : Nat)
    (sid : String)
    (hid : ∀ a, (f a).id = a.id) (hsess : ∀ a, (f a).sessionId = a.sessionId)
    (hcompl : ∀ a, (f a).isCompleted = a.isCompleted)
    (htarget : ∀ q ∈ s.userStories, q.id = tid → q.sessionId = sid ∧ q.isCompleted = false) :
    ∀ q ∈ (s.updateStoryWith cid f).userStories,
      q.id = tid → q.sessionId = sid ∧ q.isCompleted = false := by
  intro y hy hid'
  rcases List.mem_map.mp hy with ⟨q, hq, rfl⟩
  by_cases h : (q.id == cid) = true
  · simp only [h, if_true] at hid' ⊢
    rw [hid q] at hid'
    rw [hsess q, hcompl q]
    exact htarget q hq hid'
  · have h' : (q.id == cid) = false := by revert h; cases q.id == cid <;> simp
    simp only [h', if_false, Bool.false_eq_true] at hid' ⊢
    exact htarget q hq hid'

/-- `setActiveUserStory` preserves the invariants, provided every story
carrying the target id belongs to the session and is not completed. -/
theorem StateInv_setActive (s : Storage) (sid : String) (tid : Nat)
    (hinv : StateInv s)
    (htarget : ∀ q ∈ s.userStories, q.id = tid → q.sessionId = sid ∧ q.isCompleted = false) :
    StateInv (s.setActiveUserStory sid tid) := by
  unfold Storage.setActiveUserStory
  cases hcur : s.getActiveUserStory sid with
  | none =>
    dsimp only
    exact StateInv_activate s sid tid hinv htarget
      (countActive_eq_zero_of_find?_none _ _ hcur)
  | some cur =>
    dsimp only
    by_cases hcid : cur.id ≠ tid
    · rw [if_pos hcid]
      have hinv1 := StateInv_update_deactivating s cur.id
        (fun q => { q with isActive := false }) (fun a => rfl) (fun a => rfl) (fun a => rfl) hinv
      have htarget1 := htarget_map s cur.id (fun q => { q with isActive := false }) tid sid
        (fun a => rfl) (fun a => rfl) (fun a => rfl) htarget
      have hzero1 : countActive (s.updateStoryWith cur.id
          (fun q => { q with isActive := false })).userStories sid = 0 :=
        countActive_deact_found sid cur s.userStories hcur (hinv.2.1 sid)
      exact StateInv_activate _ sid tid hinv1 htarget1 hzero1
    · rw [if_neg hcid]
      have heq : cur.id = tid := not_not.mp hcid
      have hcurmem : cur ∈ s.userStories := List.mem_of_find?_eq_some hcur
      have hcuract : cur.isActive = true := by
        have := List.find?_some hcur
        simp only [Bool.and_eq_true] at this
        exact this.2
      have hmap : (s.userStories.map fun q => if q.id == tid then
          { q with isActive := true } else q) = s.userStories := by
        have := List.map_congr_left (l := s.userStories)
          (f := fun q => if q.id == tid then { q with isActive := true } else q) (g := id) ?_
        · simpa using this
        · intro q hq
          by_cases h : (q.id == tid) = true
          · have hqid : q.id = tid := by simpa using h
            have hqe : q = cur := List.inj_on_of_nodup_map hinv.1 hq hcurmem
              (by rw [hqid, heq])
            simp only [h, if_true, id]
            rw [hqe]
            exact story_set_active_self cur hcuract
          · have h' : (q.id == tid) = false := by revert h; cases q.id == tid <;> simp
            simp [h']
      exact StateInv_congr s _ (by unfold Storage.updateStoryWith; exact hmap) rfl hinv

/-- Activating a member story of the session that is not completed. -/
theorem StateInv_setActive_member (store1 : Storage) (sid : String) (n : UserStory)
    (hinv1 : StateInv store1)
    (hmem : n ∈ store1.userStories) (hsid : n.sessionId = sid)
    (hncomp : n.isCompleted = false) :
    StateInv (store1.setActiveUserStory sid n.id) := by
  apply StateInv_setActive store1 sid n.id hinv1
  intro q hq hqid
  have hqe : q = n := List.inj_on_of_nodup_map hinv1.1 hq hmem (by rw [hqid])
  rw [hqe]
  exact ⟨hsid, hncomp⟩

/-- `markUserStoryCompleted` preserves the invariants. -/
theorem StateInv_markCompleted (s : Storage) (cid : Nat) (fe : Option Int)
    (hinv : StateInv s) : StateInv (s.markUserStoryCompleted cid fe) :=
  StateInv_update_deactivating s cid _ (fun _ => rfl) (fun _ => rfl) (fun _ => rfl) hinv

/-- Vote mutations do not touch stories or sessions. -/
theorem StateInv_createOrUpdateVote (s : Storage) (pid : String) (usid : Nat) (value : Int)
    (hinv : StateInv s) : StateInv (s.createOrUpdateVote pid usid value) := by
  unfold Storage.createOrUpdateVote
  cases s.getVote pid usid with
  | some ex => exact StateInv_congr s _ rfl rfl hinv
  | none => exact StateInv_congr s _ rfl rfl hinv

theorem StateInv_clearVotes (s : Storage) (usid : Nat) (hinv : StateInv s) :
    StateInv (s.clearVotesForUserStory usid) :=
  StateInv_congr s _ rfl rfl hinv

theorem StateInv_updateParticipantWith (s : Storage) (id : String)
    (f : Participant → Participant) (hinv : StateInv s) :
    StateInv (s.updateParticipantWith id f) :=
  StateInv_congr s _ rfl rfl hinv

/-- Inserting a story record that is inactive and incomplete and whose
session exists preserves the invariants. -/
theorem StateInv_setStory_fresh (s : Storage) (newSt : UserStory)
    (hinv : StateInv s)
    (hact : newSt.isActive = false) (hcompN : newSt.isCompleted = false)
    (hsess : ∃ sess ∈ s.sessions, sess.id = newSt.sessionId) :
    StateInv { s with userStories := setStory s.userStories newSt } := by
  obtain ⟨hnodup, hcount, hcompI, hsessInv⟩ := hinv
  unfold setStory
  by_cases hany : (s.userStories.any (fun q => q.id == newSt.id)) = true
  · rw [if_pos hany]
    refine ⟨?_, ?_, ?_, ?_⟩
    · show ((s.userStories.map fun q => if q.id == newSt.id then newSt else q).map
        (fun q => q.id)).Nodup
      rw [map_story_id_of_preserve _ (fun a => by
        by_cases h : (a.id == newSt.id) = true
        · simp only [h, if_true]
          exact ((by simpa using h : a.id = newSt.id)).symm
        · simp [h])]
      exact hnodup
    · intro sid'
      refine le_trans (countActive_map_le _ _ sid' ?_) (hcount sid')
      intro a _ hb
      by_cases h : (a.id == newSt.id) = true
      · rw [h] at hb
        simp only [if_true] at hb
        rw [hact] at hb
        simp at hb
      · have h' : (a.id == newSt.id) = false := by revert h; cases a.id == newSt.id <;> simp
        rw [h'] at hb
        simpa using hb
    · intro y hy hyc
      rcases List.mem_map.mp hy with ⟨q, hq, rfl⟩
      by_cases h : (q.id == newSt.id) = true
      · simp only [h, if_true] at hyc ⊢
        rw [hcompN] at hyc
        simp at hyc
      · have h' : (q.id == newSt.id) = false := by revert h; cases q.id == newSt.id <;> simp
        simp only [h', if_false, Bool.false_eq_true] at hyc ⊢
        exact hcompI q hq hyc
    · intro y hy
      rcases List.mem_map.mp hy with ⟨q, hq, rfl⟩
      by_cases h : (q.id == newSt.id) = true
      · simp only [h, if_true]
        exact hsess
      · have h' : (q.id == newSt.id) = false := by revert h; cases q.id == newSt.id <;> simp
        simp only [h', if_false, Bool.false_eq_true]
        exact hsessInv q hq
  · rw [if_neg hany]
    have hnotin : newSt.id ∉ s.userStories.map (fun q => q.id) := by
      intro hcontra
      rcases List.mem_map.mp hcontra with ⟨q, hq, hqid⟩
      exact hany (List.any_eq_true.mpr ⟨q, hq, by simp [hqid]⟩)
    refine ⟨?_, ?_, ?_, ?_⟩
    · show ((s.userStories ++ [newSt]).map (fun q => q.id)).Nodup
      rw [List.map_append]
      rw [List.nodup_append]
      refine ⟨hnodup, by simp, ?_⟩
      intro x hx
      simp only [List.map_cons, List.map_nil, List.mem_singleton]
      intro hxe
      exact hnotin (hxe ▸ hx)
    · intro sid'
      show countActive (s.userStories ++ [newSt]) sid' ≤ 1
      unfold countActive
      rw [List.countP_append]
      have : List.countP (fun st => st.sessionId == sid' && st.isActive) [newSt] = 0 := by
        simp [List.countP_cons, hact]
      rw [this]
      simpa [countActive] using hcount sid'
    · intro y hy hyc
      rcases List.mem_append.mp hy with h | h
      · exact hcompI y h hyc
      · rw [List.mem_singleton] at h
        subst h
        rw [hcompN] at hyc
        simp at hyc
    · intro y hy
      rcases List.mem_append.mp hy with h | h
      · exact hsessInv y h
      · rw [List.mem_singleton] at h
        subst h
        exact hsess

/-- Deleting a session preserves the invariants. -/
theorem StateInv_deleteSessionOp (s : Storage) (sid : String) (hinv : StateInv s) :
    StateInv (deleteSessionOp s sid) := by
  obtain ⟨hnodup, hcount, hcomp, hsessInv⟩ := hinv
  have hsub : (s.userStories.filter (fun st => st.sessionId != sid)).Sublist s.userStories :=
    List.filter_sublist s.userStories
  refine ⟨?_, ?_, ?_, ?_⟩
  · exact hnodup.sublist (hsub.map (fun q => q.id))
  · intro sid'
    exact le_trans (hsub.countP_le _) (hcount sid')
  · intro y hy hyc
    exact hcomp y (List.mem_of_mem_filter hy) hyc
  · intro y hy
    have hyne : y.sessionId ≠ sid := by
      have := List.of_mem_filter hy
      simpa using this
    rcases hsessInv y (List.mem_of_mem_filter hy) with ⟨sess, hsem, hsid⟩
    refine ⟨sess, ?_, hsid⟩
    apply List.mem_filter.mpr
    refine ⟨hsem, ?_⟩
    simp only [bne_iff_ne, ne_eq]
    rw [hsid]
    exact hyne

/-- `Map.set` adds the inserted story or keeps an old one. -/
theorem mem_setStory {y : UserStory} (l : List UserStory) (st : UserStory) :
    y ∈ setStory l st → y = st ∨ y ∈ l := by
  unfold setStory
  by_cases hany : (l.any (fun q => q.id == st.id)) = true
  · rw [if_pos hany]
    intro hy
    rcases List.mem_map.mp hy with ⟨q, hq, rfl⟩
    by_cases h : (q.id == st.id) = true
    · left; simp [h]
    · have h' : (q.id == st.id) = false := by revert h; cases q.id == st.id <;> simp
      right
      simp only [h', if_false, Bool.false_eq_true]
      exact hq
  · rw [if_neg hany]
    intro hy
    rcases List.mem_append.mp hy with h | h
    · right; exact h
    · left; simpa using h

/-! ### Handler-level invariant preservation -/

theorem StateInv_handleVote (store : Storage) (c : WSClient) (sid : String) (usid : Nat)
    (v : Int) (hinv : StateInv store) : StateInv (handleVote store c sid usid v).1 := by
  unfold handleVote
  cases c.participantId with
  | none => exact hinv
  | some pid =>
    dsimp only
    by_cases hs : c.sessionId ≠ some sid
    · rw [if_pos hs]; exact hinv
    · rw [if_neg hs]
      cases store.getUserStory usid with
      | none => exact hinv
      | some st =>
        dsimp only
        by_cases hcond : st.sessionId ≠ sid ∨ st.isActive = false ∨ st.isCompleted = true
        · rw [if_pos hcond]; exact hinv
        · rw [if_neg hcond]
          exact StateInv_createOrUpdateVote store pid usid v hinv

theorem handleRevealVotes_fst (store : Storage) (c : WSClient) (sid : String) (usid : Nat) :
    (handleRevealVotes store c sid usid).1 = store := by
  unfold handleRevealVotes
  by_cases hhost : ¬(c.isHost = true ∧ c.sessionId = some sid)
  · rw [if_pos hhost]
  · rw [if_neg hhost]
    cases store.getUserStory usid with
    | none => rfl
    | some st =>
      dsimp only
      by_cases hcond : st.sessionId ≠ sid ∨ st.isActive = false
      · rw [if_pos hcond]
      · rw [if_neg hcond]

theorem StateInv_handleRestart (store : Storage) (c : WSClient) (sid : String) (usid : Nat)
    (hinv : StateInv store) : StateInv (handleRestartVote store c sid usid).1 := by
  unfold handleRestartVote
  by_cases hhost : ¬(c.isHost = true ∧ c.sessionId = some sid)
  · rw [if_pos hhost]; exact hinv
  · rw [if_neg hhost]
    cases store.getUserStory usid with
    | none => exact hinv
    | some st =>
      dsimp only
      by_cases hcond : st.sessionId ≠ sid ∨ st.isActive = false
      · rw [if_pos hcond]; exact hinv
      · rw [if_neg hcond]
        exact StateInv_clearVotes store usid hinv

theorem StateInv_handleSkip (store : Storage) (c : WSClient) (sid : String) (stid : Nat)
    (hinv : StateInv store) : StateInv (handleSkipStory store c sid stid).1 := by
  unfold handleSkipStory
  by_cases hhost : ¬(c.isHost = true ∧ c.sessionId = some sid)
  · rw [if_pos hhost]; exact hinv
  · rw [if_neg hhost]
    cases store.getUserStory stid with
    | none => exact hinv
    | some st =>
      dsimp only
      by_cases hcond : st.sessionId ≠ sid ∨ st.isActive = false
      · rw [if_pos hcond]; exact hinv
      · rw [if_neg hcond]
        have hinv1 : StateInv (store.updateStoryWith stid
            (fun q => { q with isActive := false })) :=
          StateInv_update_deactivating store stid _ (fun _ => rfl) (fun _ => rfl)
            (fun _ => rfl) hinv
        cases hnexts : (storiesAfter (Storage.getUserStories
            (store.updateStoryWith stid (fun q => { q with isActive := false })) sid)
            stid).filter (fun s => !s.isCompleted) with
        | nil => exact hinv1
        | cons n rest =>
          dsimp only
          have hn : n ∈ (storiesAfter (Storage.getUserStories
              (store.updateStoryWith stid (fun q => { q with isActive := false })) sid)
              stid).filter (fun s => !s.isCompleted) := by
            rw [hnexts]; exact List.mem_cons_self n rest
          rw [List.mem_filter] at hn
          have hmem := mem_storiesAfter _ _ hn.1
          rw [mem_getUserStories] at hmem
          exact StateInv_clearVotes _ _ (StateInv_setActive_member _ sid n hinv1 hmem.1 hmem.2
            (by simpa using hn.2))

theorem StateInv_handleNext (store : Storage) (c : WSClient) (sid : String) (cid : Nat)
    (fe : Option Int) (hinv : StateInv store) :
    StateInv (handleNextStory store c sid cid fe).1 := by
  unfold handleNextStory
  by_cases hhost : ¬(c.isHost = true ∧ c.sessionId = some sid)
  · rw [if_pos hhost]; exact hinv
  · rw [if_neg hhost]
    dsimp only
    have hinv1 := StateInv_markCompleted store cid fe hinv
    cases hnexts : (storiesAfter (Storage.getUserStories
        (store.markUserStoryCompleted cid fe) sid) cid).filter
        (fun s => !s.isCompleted) with
    | nil => exact hinv1
    | cons n rest =>
      dsimp only
      have hn : n ∈ (storiesAfter (Storage.getUserStories
          (store.markUserStoryCompleted cid fe) sid) cid).filter
          (fun s => !s.isCompleted) := by
        rw [hnexts]; exact List.mem_cons_self n rest
      rw [List.mem_filter] at hn
      have hmem := mem_storiesAfter _ _ hn.1
      rw [mem_getUserStories] at hmem
      exact StateInv_clearVotes _ _ (StateInv_setActive_member _ sid n hinv1 hmem.1 hmem.2
        (by simpa using hn.2))

theorem StateInv_joinRest (store : Storage) (sid alias_ newPid : String)
    (hinv : StateInv store) : StateInv (joinRest store sid alias_ newPid).1 := by
  unfold joinRest
  cases store.getSession sid with
  | none => exact hinv
  | some s =>
    dsimp only
    cases store.getParticipantByAlias sid alias_ with
    | some p =>
      dsimp only
      by_cases hc : p.isConnected = true
      · rw [if_pos hc]; exact hinv
      · rw [if_neg hc]
        exact StateInv_updateParticipantWith store p.id _ hinv
    | none =>
      dsimp only
      exact StateInv_congr store _ rfl rfl hinv

theorem StateInv_handleJoinSession (store : Storage) (c : WSClient) (sid pid : String)
    (hinv : StateInv store) : StateInv (handleJoinSession store c sid pid).1 := by
  unfold handleJoinSession
  cases store.getSession sid with
  | none => exact hinv
  | some s =>
    dsimp only
    cases store.getParticipant pid with
    | none => exact hinv
    | some p => exact StateInv_updateParticipantWith store pid _ hinv

theorem handleHostJoinSession_fst (store : Storage) (c : WSClient) (sid : String)
    (uid : Nat) : (handleHostJoinSession store c sid uid).1 = store := by
  unfold handleHostJoinSession
  cases store.getSession sid with
  | none => rfl
  | some s =>
    dsimp only
    by_cases h : s.hostId ≠ uid
    · rw [if_pos h]
    · rw [if_neg h]

theorem StateInv_createSessionOp (s : Storage) (sid name : String) (hostId : Nat)
    (scale : List Int) (notif : Bool) (stories : List (String × Option String))
    (hfresh : (s.sessions.any (fun x => x.id == sid)) = false)
    (hinv : StateInv s) :
    StateInv (createSessionOp s sid name hostId scale notif stories) := by
  obtain ⟨hnodup, hcount, hcomp, hsessInv⟩ := hinv
  unfold createSessionOp
  dsimp only
  have hbase : StateInv { s with sessions := s.sessions ++
        [({ id := sid, name := name, hostId := hostId, scale := scale
            notificationsEnabled := notif } : Session)] } ∧
      (∃ sess ∈ ({ s with sessions := s.sessions ++
        [({ id := sid, name := name, hostId := hostId, scale := scale
            notificationsEnabled := notif } : Session)] } : Storage).sessions, sess.id = sid) ∧
      (∀ q ∈ ({ s with sessions := s.sessions ++
        [({ id := sid, name := name, hostId := hostId, scale := scale
            notificationsEnabled := notif } : Session)] } : Storage).userStories,
        q.sessionId = sid → q.isCompleted = false) := by
    refine ⟨⟨hnodup, hcount, hcomp, ?_⟩, ?_, ?_⟩
    · intro y hy
      rcases hsessInv y hy with ⟨sess, hm, hid⟩
      exact ⟨sess, List.mem_append_left _ hm, hid⟩
    · exact ⟨⟨sid, name, hostId, scale, notif⟩, List.mem_append_right _ (by simp), rfl⟩
    · intro q hq hqs
      rcases hsessInv q hq with ⟨sess, hm, hid⟩
      exfalso
      have : (s.sessions.any (fun x => x.id == sid)) = true :=
        List.any_eq_true.mpr ⟨sess, hm, by simp [hid, hqs]⟩
      rw [hfresh] at this
      exact Bool.false_ne_true this
  have hfold : ∀ (lst : List (Nat × (String × Option String))) (acc : Storage),
      (StateInv acc ∧ (∃ sess ∈ acc.sessions, sess.id = sid) ∧
        (∀ q ∈ acc.userStories, q.sessionId = sid → q.isCompleted = false)) →
      (StateInv (lst.foldl (fun acc it =>
          (acc.createUserStory sid it.2.1 it.2.2 (Int.ofNat it.1)).1) acc) ∧
        (∃ sess ∈ (lst.foldl (fun acc it =>
          (acc.createUserStory sid it.2.1 it.2.2 (Int.ofNat it.1)).1) acc).sessions,
          sess.id = sid) ∧
        (∀ q ∈ (lst.foldl (fun acc it =>
          (acc.createUserStory sid it.2.1 it.2.2 (Int.ofNat it.1)).1) acc).userStories,
          q.sessionId = sid → q.isCompleted = false)) := by
    intro lst
    induction lst with
    | nil => exact fun acc h => h
    | cons it tl ih =>
      intro acc ⟨hinvA, hsessA, hcompA⟩
      apply ih
      refine ⟨?_, ?_, ?_⟩
      · have hnew := StateInv_setStory_fresh acc
          ({ id := acc.userStoryIdCounter, sessionId := sid, title := it.2.1
             description := it.2.2, finalEstimate := none, order := Int.ofNat it.1
             isActive := false, isCompleted := false } : UserStory) hinvA rfl rfl hsessA
        exact StateInv_congr _ _ rfl rfl hnew
      · exact hsessA
      · intro q hq hqs
        rcases mem_setStory _ _ hq with h | h
        · rw [h]
        · exact hcompA q h hqs
  have hP := hfold stories.enum _ hbase
  cases hfirst : Storage.getUserStories (stories.enum.foldl (fun acc it =>
      (acc.createUserStory sid it.2.1 it.2.2 (Int.ofNat it.1)).1)
      { s with sessions := s.sessions ++
        [({ id := sid, name := name, hostId := hostId, scale := scale
            notificationsEnabled := notif } : Session)] }) sid with
  | nil => exact hP.1
  | cons first rest =>
    have hfmem : first ∈ Storage.getUserStories (stories.enum.foldl (fun acc it =>
        (acc.createUserStory sid it.2.1 it.2.2 (Int.ofNat it.1)).1)
        { s with sessions := s.sessions ++
          [({ id := sid, name := name, hostId := hostId, scale := scale
              notificationsEnabled := notif } : Session)] }) sid := by
      rw [hfirst]; exact List.mem_cons_self first rest
    rw [mem_getUserStories] at hfmem
    exact StateInv_setActive_member _ sid first hP.1 hfmem.1 hfmem.2
      (hP.2.2 first hfmem.1 hfmem.2)

/-! ### Step-level preservation and the reachable-state invariants -/

theorem StateInv_stepCmd (st : SysState) (cmd : Cmd) (h : StateInv st.store) :
    StateInv (stepCmd st cmd).1.store := by
  cases cmd with
  | createSession sid name hostId scale notif stories =>
    unfold stepCmd
    dsimp only
    by_cases hfresh : (st.store.sessions.any (fun s => s.id == sid)) = true
    · rw [if_pos hfresh]; exact h
    · rw [if_neg hfresh]
      have hfresh' : (st.store.sessions.any (fun s => s.id == sid)) = false := by
        revert hfresh; cases st.store.sessions.any (fun s => s.id == sid) <;> simp
      exact StateInv_createSessionOp _ _ _ _ _ _ _ hfresh' h
  | deleteSession sid userId =>
    unfold stepCmd
    dsimp only
    cases st.store.getSession sid with
    | none => exact h
    | some s =>
      dsimp only
      by_cases hh : s.hostId ≠ userId
      · rw [if_pos hh]; exact h
      · rw [if_neg hh]; exact StateInv_deleteSessionOp _ _ h
  | joinRest sid alias_ newPid =>
    exact StateInv_joinRest _ _ _ _ h
  | wsConnect conn => exact h
  | wsDisconnect conn =>
    unfold stepCmd
    dsimp only
    cases getClient st.clients conn with
    | none => exact h
    | some c =>
      dsimp only
      cases c.participantId with
      | some pid => exact StateInv_updateParticipantWith _ _ _ h
      | none => exact h
  | wsJoinSession conn sid pid =>
    unfold stepCmd
    dsimp only
    cases getClient st.clients conn with
    | none => exact h
    | some c => exact StateInv_handleJoinSession _ _ _ _ h
  | wsHostJoin conn sid userId =>
    unfold stepCmd
    dsimp only
    cases getClient st.clients conn with
    | none => exact h
    | some c =>
      dsimp only
      show StateInv (handleHostJoinSession st.store c sid userId).1
      rw [handleHostJoinSession_fst]
      exact h
  | wsVote conn sid storyId value =>
    unfold stepCmd
    dsimp only
    cases getClient st.clients conn with
    | none => exact h
    | some c => exact StateInv_handleVote _ _ _ _ _ h
  | wsReveal conn sid storyId =>
    unfold stepCmd
    dsimp only
    cases getClient st.clients conn with
    | none => exact h
    | some c =>
      dsimp only
      show StateInv (handleRevealVotes st.store c sid storyId).1
      rw [handleRevealVotes_fst]
      exact h
  | wsRestart conn sid storyId =>
    unfold stepCmd
    dsimp only
    cases getClient st.clients conn with
    | none => exact h
    | some c => exact StateInv_handleRestart _ _ _ _ h
  | wsSkip conn sid storyId =>
    unfold stepCmd
    dsimp only
    cases getClient st.clients conn with
    | none => exact h
    | some c => exact StateInv_handleSkip _ _ _ _ h
  | wsNext conn sid storyId finalEstimate =>
    unfold stepCmd
    dsimp only
    cases getClient st.clients conn with
    | none => exact h
    | some c => exact StateInv_handleNext _ _ _ _ _ h

theorem StateInv_empty : StateInv Storage.empty := by
  refine ⟨by simp [Storage.empty], fun sid => by simp [countActive, Storage.empty],
    by simp [Storage.empty], by simp [Storage.empty]⟩

theorem StateInv_runCmds (cmds : List Cmd) : ∀ (st : SysState), StateInv st.store →
    StateInv (runCmds st cmds).store := by
  induction cmds with
  | nil => exact fun st h => h
  | cons cmd tl ih =>
    intro st h
    exact ih _ (StateInv_stepCmd st cmd h)

/-- C3: in every state reachable by any command sequence (session
creation/deletion, joins, connects/disconnects, votes, reveal, restart,
skip, next), each session has at most one active story. -/
theorem atMostOneActive_invariant (cmds : List Cmd) (sid : String) :
    countActive (runCmds SysState.init cmds).store.userStories sid ≤ 1 :=
  (StateInv_runCmds cmds SysState.init StateInv_empty).2.1 sid

/-- C7 counterexample: a `next_story` whose payload carries no estimate
(`finalEstimate` null) completes the story with `finalEstimate = none`,
so `isCompleted` does not imply a non-null estimate. -/
theorem completed_without_estimate_counterexample :
    ((runCmds SysState.init (cmdsHost ++ [.wsNext 0 "s1" 1 none])).store.getUserStory 1).map
      (fun st => (st.isCompleted, st.finalEstimate)) = some (true, none) := by
  decide

/-- C7 (amended): in every reachable state, a completed story is
inactive; the estimate recorded at completion is whatever the client
payload carried and may be null. -/
theorem completed_implies_inactive (cmds : List Cmd) :
    ∀ st ∈ (runCmds SysState.init cmds).store.userStories,
      st.isCompleted = true → st.isActive = false :=
  fun st hmem hc => (StateInv_runCmds cmds SysState.init StateInv_empty).2.2.1 st hmem hc

/-- Witness for C7 (amended): the story completed by `cmdsNextOnce`. -/
theorem completed_implies_inactive_witness :
    (⟨1, "s1", "A", none, some 5, 0, false, true⟩ : UserStory) ∈
      (runCmds SysState.init cmdsNextOnce).store.userStories ∧
    (⟨1, "s1", "A", none, some 5, 0, false, true⟩ : UserStory).isActive = false :=
  ⟨by decide, completed_implies_inactive cmdsNextOnce _ (by decide) (by decide)⟩

end PokerPlanner
